import Mathlib

/-!
# Verification of the Text-to-SQL pipeline (`backend.py`)

Shallow embedding of the core pipeline of the repository: the PII
tokenizer (`pii_filter_input`), the redactor (`redact_result_data`),
the four LangGraph nodes (`generate_sql_node`, `check_sql_node`,
`execute_sql_node`, `generate_answer_node`), the retry predicate
(`should_retry`) and the compiled graph driver, together with proofs
about the specification's claims.

Strings are modelled as `List Char` (`Str`).  Python's `str.replace`,
`in`, `.upper()`, `.strip()` and the email regular expression
`[\w\.-]+@[\w\.-]+\.\w+` (with `re.findall` semantics: leftmost,
greedy with backtracking, non-overlapping) are given executable
definitions below.  Python's `\w`/`upper` are Unicode-aware; the model
uses the ASCII fragment, which agrees with Python on all ASCII inputs
(all inputs used in witnesses and counterexamples are ASCII).
The external text-generation service and the relational store are
oracle parameters of the pipeline.
-/

/-- Strings, modelled as lists of characters. -/
abbrev Str := List Char

/-! ## Character classes of the email pattern -/

/-- ASCII fragment of the regex class `\w`. -/
def isWordChar (c : Char) : Bool := c.isAlphanum || c == '_'

/-- The regex class `[\w\.-]` (word characters plus `.` and `-`). -/
def isAChar (c : Char) : Bool := isWordChar c || c == '.' || c == '-'

/-! ## Python string primitives -/

/-- Fuelled scanning loop of Python `str.replace`; structurally
recursive so that concrete runs reduce by `decide`/`rfl`.  One unit of
fuel per consumed character suffices (`replaceAllAux_fuel`). -/
def replaceAllAux (pat rep : Str) : Nat → Str → Str
  | 0, s => s
  | _ + 1, [] => []
  | fuel + 1, c :: rest =>
    match !pat.isEmpty && pat.isPrefixOf (c :: rest) with
    | true => rep ++ replaceAllAux pat rep fuel ((c :: rest).drop pat.length)
    | false => c :: replaceAllAux pat rep fuel rest

/-- Python `s.replace(pat, rep)`: replace every non-overlapping
occurrence of `pat`, scanning left to right, not rescanning `rep`.
All call sites in `backend.py` pass a non-empty pattern; for an empty
pattern this definition returns the string unchanged. -/
def replaceAll (pat rep s : Str) : Str := replaceAllAux pat rep s.length s

/-- Python `pat in s` (substring test). -/
def listInfix (pat : Str) : Str → Bool
  | [] => pat.isEmpty
  | c :: rest => pat.isPrefixOf (c :: rest) || listInfix pat rest

/-- Python `s.upper()` (ASCII fragment). -/
def upperStr (s : Str) : Str := s.map Char.toUpper

/-- Python `s.strip()` (whitespace trim on both ends). -/
def pyStrip (s : Str) : Str :=
  ((s.dropWhile Char.isWhitespace).reverse.dropWhile Char.isWhitespace).reverse

/-- Fuelled decimal rendering (fuel bounds the value, see
`natToDecAux_fuel`). -/
def natToDecAux : Nat → Nat → Str
  | 0, _ => []
  | fuel + 1, n =>
    if n < 10 then [Nat.digitChar n]
    else natToDecAux fuel (n / 10) ++ [Nat.digitChar (n % 10)]

/-- Decimal rendering of a natural number, as produced by the
f-string `f"__EMAIL_{i+1}__"`. -/
def natToDec (n : Nat) : Str := natToDecAux (n + 1) n

/-! ## The email matcher

`emailMatchAt l` matches the pattern `[\w\.-]+@[\w\.-]+\.\w+` at the
head of `l` and returns `(match, rest)`:
* the first `[\w\.-]+` takes the maximal `isAChar` run (backtracking
  cannot help because `@` is not in the class);
* the second `[\w\.-]+` backtracks: the engine picks the largest
  `j ≥ 1` with `dom[j] = '.'` and `dom[j+1]` a word character;
* the final `\w+` is greedy.
-/

/-- The backtracking condition for the split of the domain run. -/
def validSplitB (dom : Str) (j : Nat) : Bool :=
  decide (1 ≤ j) && (dom.getD j ' ' == '.') && isWordChar (dom.getD (j+1) ' ')

/-- Largest valid backtracking split index of the domain run. -/
def domSplit (dom : Str) : Option Nat :=
  (List.range dom.length).reverse.find? (validSplitB dom)

/-- Match the email pattern at the head of `l`. -/
def emailMatchAt (l : Str) : Option (Str × Str) :=
  let loc := l.takeWhile isAChar
  if loc.isEmpty then none else
  match l.dropWhile isAChar with
  | [] => none
  | c :: r2 =>
    if c = '@' then
      let dom := r2.takeWhile isAChar
      let r3 := r2.dropWhile isAChar
      match domSplit dom with
      | some j =>
        some (loc ++ '@' :: (dom.take j ++ '.' :: (dom.drop (j+1)).takeWhile isWordChar),
              (dom.drop (j+1)).dropWhile isWordChar ++ r3)
      | none => none
    else none

/-- `re.findall` scanning loop, with explicit fuel (one unit per
consumed character suffices, see `findallAux_fuel`). -/
def findallAux (fuel : Nat) (l : Str) : List Str :=
  match fuel, l with
  | 0, _ => []
  | _ + 1, [] => []
  | fuel + 1, c :: rest =>
    match emailMatchAt (c :: rest) with
    | some (m, r) => m :: findallAux fuel r
    | none => findallAux fuel rest

/-- `re.findall(email_pattern, l)`. -/
def findallEmails (l : Str) : List Str := findallAux l.length l

/-! ## Tokenizer and redactor (`pii_filter_input`, `redact_result_data`) -/

/-- The placeholder token `f"__EMAIL_{n}__"`. -/
def placeholder (n : Nat) : Str := "__EMAIL_".data ++ natToDec n ++ "__".data

/-- Python dict assignment `m[k] = v` on an insertion-ordered
association list: update in place if the key exists, else append. -/
def dictSet (m : List (Str × Str)) (k v : Str) : List (Str × Str) :=
  if m.any (fun p => p.1 == k) then
    m.map (fun p => if p.1 == k then (k, v) else p)
  else m ++ [(k, v)]

/-- One iteration of the loop in `pii_filter_input`:
`pii_map[placeholder] = email; sanitized = sanitized.replace(email, placeholder)`. -/
def piiFilterStep (acc : Str × List (Str × Str)) (ie : Nat × Str) :
    Str × List (Str × Str) :=
  (replaceAll ie.2 (placeholder (ie.1 + 1)) acc.1,
   dictSet acc.2 (placeholder (ie.1 + 1)) ie.2)

/-- `pii_filter_input(text)`: returns `(sanitized_text, pii_map)`. -/
def pii_filter_input (text : Str) : Str × List (Str × Str) :=
  ((findallEmails text).enum).foldl piiFilterStep (text, [])

/-- The redaction tag `"[EMAIL_REDACTED]"`. -/
def redactTag : Str := "[EMAIL_REDACTED]".data

/-- `redact_result_data(data_str, pii_map)`. -/
def redact_result_data (data_str : Str) (pii_map : List (Str × Str)) : Str :=
  if pii_map.isEmpty then data_str
  else pii_map.foldl (fun s pv => replaceAll pv.2 redactTag s) data_str

/-- The executor's re-hydration: substitute every placeholder of the
map by its real value, in insertion order (the loop in
`execute_sql_node`). -/
def rehydrateStr (m : List (Str × Str)) (s : Str) : Str :=
  m.foldl (fun acc pv => replaceAll pv.1 pv.2 acc) s

/-- The answer composer's final scrub: replace every placeholder of
the map by the redaction tag (the loop in `generate_answer_node`). -/
def scrubAnswer (m : List (Str × Str)) (s : Str) : Str :=
  m.foldl (fun acc pv => replaceAll pv.1 redactTag acc) s

/-! ## Pipeline data model

`AgentState` mirrors the `AgentState` TypedDict of `backend.py`; the
Python `None`-able `error` field becomes `Option Str`, the `pii_map`
dict becomes an insertion-ordered association list, and the possibly
empty `chart_data` dict becomes `Option ChartData`. -/

/-- Message roles of the langchain message kinds used. -/
inductive Role
  | system
  | human
deriving DecidableEq

/-- A role-tagged message sent to the text-generation service. -/
structure Message where
  role : Role
  content : Str
deriving DecidableEq

/-- A tabular query result (named columns, rows of cells). -/
structure DataFrame where
  cols : List Str
  rows : List (List Str)
deriving DecidableEq

/-- pandas `df.empty`: true iff one of the axes has length 0. -/
def DataFrame.empty (df : DataFrame) : Bool :=
  df.rows.isEmpty || df.cols.isEmpty

/-- pandas `df.iloc[:, i].tolist()`: column `i`, in row order. -/
def DataFrame.colValues (df : DataFrame) (i : Nat) : List Str :=
  df.rows.map (fun r => r.getD i [])

/-- The `chart_data` projection built by `execute_sql_node`. -/
structure ChartData where
  labels : List Str
  values : List Str
  columns : List Str
deriving DecidableEq

/-- The pipeline state (`AgentState` in `backend.py`). -/
structure AgentState where
  question : Str
  sanitized_question : Str
  sql_query : Str
  query_result : Str
  final_answer : Str
  chart_data : Option ChartData
  error : Option Str
  retry_count : Nat
  pii_map : List (Str × Str)
deriving DecidableEq

/-- The entry state: callers invoke the graph with
`{"question": q, "retry_count": 0}`. -/
def initState (q : Str) : AgentState :=
  ⟨q, [], [], [], [], none, none, 0, []⟩

/-- Python truthiness of `state.get("error")` (`None` and `""` are
falsy). -/
def errTruthy : Option Str → Bool
  | none => false
  | some s => !s.isEmpty

/-- The external services, as oracles.  The text-generation service
and the store receive a call counter so that repeated calls may
behave differently; `.error` models a raised exception.  `render`
models `str(dataframe)`. -/
structure Oracles where
  schema : Str
  llm : Nat → List Message → Except Str Str
  dbExec : Nat → Str → Except Str DataFrame
  render : DataFrame → Str

/-- Observable events of a pipeline run.  `snap` records the state
after each node. -/
inductive Event
  | llmCall (msgs : List Message) (resp : Str)
  | execCall (sql : Str) (ok : Bool)
  | snap (st : AgentState)
deriving DecidableEq

abbrev Trace := List Event

/-- Number of text-generation calls recorded so far. -/
def llmCount (tr : Trace) : Nat :=
  (tr.filter fun e => match e with | .llmCall _ _ => true | _ => false).length

/-- Number of store executions recorded so far. -/
def execCount (tr : Trace) : Nat :=
  (tr.filter fun e => match e with | .execCall _ _ => true | _ => false).length

/-! ## Prompt templates (the f-strings of `backend.py`) -/

def genPromptPre : Str :=
  ("You are an expert SQL Data Analyst.\n    1. Schema: ").data

def genPromptPost : Str :=
  ("\n    2. IMPORTANT: The user query uses placeholders like \x27__EMAIL_1__\x27.\n       Treat these as LITERAL strings to search for in the database.\n       DO NOT try to remove the underscores.\n    3. Generate a valid SQLITE query.\n    4. Output ONLY the SQL query.\n    ").data

/-- The system prompt of `generate_sql_node`. -/
def genPrompt (schema : Str) : Str := genPromptPre ++ schema ++ genPromptPost

def userQuestionTag : Str := ("User Question: ").data

def checkPromptPre : Str := ("Verify this SQL query for SQLite schema: ").data

def checkPromptMid : Str := ("\n    Query: ").data

def checkPromptPost : Str :=
  ("\n    If correct, output \"CORRECT\". If incorrect, output ONLY the fixed SQL.\n    ").data

/-- The system prompt of `check_sql_node`. -/
def checkPrompt (schema sql : Str) : Str :=
  checkPromptPre ++ schema ++ checkPromptMid ++ sql ++ checkPromptPost

def answerPromptPre : Str := ("\n    User Question: ").data

def answerPromptMid1 : Str := ("\n    SQL Query: ").data

def answerPromptMid2 : Str := ("\n    Data Retrieved: ").data

def answerPromptPost : Str :=
  ("\n   \n    Answer the question.\n    If the data shows the email is present, confirm it using \x27[EMAIL_REDACTED]\x27.\n    If the data is empty, don\x27t say anything about emails or so.\n    ").data

/-- The prompt of `generate_answer_node`. -/
def answerPrompt (sq sql qr : Str) : Str :=
  answerPromptPre ++ sq ++ answerPromptMid1 ++ sql ++ answerPromptMid2 ++ qr ++
    answerPromptPost

/-! ## Model-output post-processing -/

def fenceSql : Str := ("```sql").data

def fence : Str := ("```").data

/-- `resp.replace("```sql", "").replace("```", "").strip()`. -/
def stripFences (resp : Str) : Str :=
  pyStrip (replaceAll fence [] (replaceAll fenceSql [] resp))

/-- Split at the first occurrence of `pat`:
`splitFirst pat s = some (before, after)` iff `s = before ++ pat ++ after`
with the occurrence leftmost. -/
def splitFirst (pat : Str) : Str → Option (Str × Str)
  | [] => if pat.isEmpty then some ([], []) else none
  | c :: rest =>
    if pat.isPrefixOf (c :: rest) then some ([], (c :: rest).drop pat.length)
    else
      match splitFirst pat rest with
      | some (b, a) => some (c :: b, a)
      | none => none

/-- `re.search(r"```sql(.*?)```", res_text, re.DOTALL)`: the leftmost
opener together with the closest closer after it (if the first opener
has no closer, no later opener has one either). -/
def extractFenced (resp : Str) : Option Str :=
  match splitFirst fenceSql resp with
  | none => none
  | some (_, rest) =>
    match splitFirst fence rest with
    | none => none
    | some (inner, _) => some inner

/-! ## The four graph nodes -/

/-- `generate_sql_node`: tokenize the question, call the model with
the schema prompt and the sanitized question, strip code fences. -/
def generate_sql_node (O : Oracles) (tr : Trace) (st : AgentState) :
    Except Str (AgentState × Trace) :=
  let sanitized := (pii_filter_input st.question).1
  let pm := (pii_filter_input st.question).2
  let msgs := [⟨Role.system, genPrompt O.schema⟩,
               ⟨Role.human, userQuestionTag ++ sanitized⟩]
  match O.llm (llmCount tr) msgs with
  | .error e => .error e
  | .ok resp =>
    let st' := { st with
      sql_query := stripFences resp
      sanitized_question := sanitized
      pii_map := pm
      retry_count := st.retry_count }
    .ok (st', tr ++ [.llmCall msgs resp, .snap st'])

def unsafeQueryMsg : Str := ("Unsafe query detected.").data

def correctTag : Str := ("CORRECT").data

/-- `check_sql_node`: local destructive-keyword gate, then a model
certify-or-repair round. -/
def check_sql_node (O : Oracles) (tr : Trace) (st : AgentState) :
    Except Str (AgentState × Trace) :=
  let sql := st.sql_query
  if listInfix ("DROP").data (upperStr sql) ||
     listInfix ("DELETE").data (upperStr sql) then
    let st' := { st with error := some unsafeQueryMsg, sql_query := [] }
    .ok (st', tr ++ [.snap st'])
  else
    let msgs := [⟨Role.system, checkPrompt O.schema sql⟩]
    match O.llm (llmCount tr) msgs with
    | .error e => .error e
    | .ok resp =>
      let resText := pyStrip resp
      if listInfix correctTag (upperStr resText) then
        let st' := { st with error := none }
        .ok (st', tr ++ [.llmCall msgs resp, .snap st'])
      else
        match extractFenced resText with
        | some inner =>
          let st' := { st with sql_query := pyStrip inner, error := none }
          .ok (st', tr ++ [.llmCall msgs resp, .snap st'])
        | none =>
          let st' := { st with sql_query := stripFences resText, error := none }
          .ok (st', tr ++ [.llmCall msgs resp, .snap st'])

/-- `execute_sql_node`: re-hydrate placeholders, run the query,
redact the rendered result, derive the chart projection; on a store
error, record it and bump `retry_count`. -/
def execute_sql_node (O : Oracles) (tr : Trace) (st : AgentState) :
    AgentState × Trace :=
  let executable := rehydrateStr st.pii_map st.sql_query
  match O.dbExec (execCount tr) executable with
  | .ok df =>
    let safe := redact_result_data (O.render df) st.pii_map
    let chart : Option ChartData :=
      if !df.empty && decide (2 ≤ df.cols.length) then
        some ⟨df.colValues 0, df.colValues 1, df.cols⟩
      else none
    let st' := { st with query_result := safe, chart_data := chart }
    (st', tr ++ [.execCall executable true, .snap st'])
  | .error e =>
    let st' := { st with error := some e, retry_count := st.retry_count + 1 }
    (st', tr ++ [.execCall executable false, .snap st'])

def errorAnswerTag : Str := ("Error: ").data

/-- `generate_answer_node`: error template if `error` is truthy,
otherwise a model call followed by the placeholder scrub. -/
def generate_answer_node (O : Oracles) (tr : Trace) (st : AgentState) :
    Except Str (AgentState × Trace) :=
  if errTruthy st.error then
    let st' := { st with final_answer := errorAnswerTag ++ st.error.getD [] }
    .ok (st', tr ++ [.snap st'])
  else
    let msgs := [⟨Role.human,
      answerPrompt st.sanitized_question st.sql_query st.query_result⟩]
    match O.llm (llmCount tr) msgs with
    | .error e => .error e
    | .ok resp =>
      let st' := { st with final_answer := scrubAnswer st.pii_map resp }
      .ok (st', tr ++ [.llmCall msgs resp, .snap st'])

/-- `should_retry`. -/
def should_retry (st : AgentState) : Bool :=
  errTruthy st.error && decide (st.retry_count < 3)

def recursionMsg : Str := ("GraphRecursionError").data

/-- The compiled graph: `generate_sql → check_sql → execute_sql →
(retry | generate_answer)`.  Fuel models langgraph's recursion limit;
exhausting it models the `GraphRecursionError` exception. -/
def pipelineLoop (O : Oracles) : Nat → AgentState → Trace →
    Except Str (AgentState × Trace)
  | 0, _, _ => .error recursionMsg
  | fuel + 1, st, tr =>
    match generate_sql_node O tr st with
    | .error e => .error e
    | .ok (st1, tr1) =>
      match check_sql_node O tr1 st1 with
      | .error e => .error e
      | .ok (st2, tr2) =>
        let p := execute_sql_node O tr2 st2
        if should_retry p.1 then pipelineLoop O fuel p.1 p.2
        else generate_answer_node O p.2 p.1

/-- A full pipeline run on question `q`. -/
def runPipeline (O : Oracles) (fuel : Nat) (q : Str) :
    Except Str (AgentState × Trace) :=
  pipelineLoop O fuel (initState q) []

/-! ## Notions used by the claim statements -/

/-- `pat` occurs in `s` at position `i`. -/
def occursAt (pat s : Str) (i : Nat) : Prop := pat <+: s.drop i

/-- Number of positions of `s` at which `pat` occurs. -/
def countOccur (pat s : Str) : Nat :=
  ((List.range (s.length + 1)).filter (fun i => pat.isPrefixOf (s.drop i))).length

/-- The state snapshots recorded in a trace (state after each node). -/
def snapStates (tr : Trace) : List AgentState :=
  tr.filterMap (fun e => match e with | .snap s => some s | _ => none)

/-- The message lists sent to the text-generation service in a trace. -/
def llmMessages (tr : Trace) : List (List Message) :=
  tr.filterMap (fun e => match e with | .llmCall m _ => some m | _ => none)

/-- The query texts passed to the relational store in a trace,
together with the success flag. -/
def execQueries (tr : Trace) : List (Str × Bool) :=
  tr.filterMap (fun e => match e with | .execCall s ok => some (s, ok) | _ => none)

/-- The characters an email match can consist of. -/
def isEmailChar (c : Char) : Bool := isAChar c || c == '@'

/-- The real-value set of a placeholder map. -/
def mapValues (m : List (Str × Str)) : List Str := m.map Prod.snd

/-- `s` contains no value of `vals` as a substring. -/
def ValueFree (vals : List Str) (s : Str) : Prop := ∀ v ∈ vals, ¬ v <:+: s

instance (vals : List Str) (s : Str) : Decidable (ValueFree vals s) := by
  unfold ValueFree
  infer_instance

/-- Destructive-keyword test of `check_sql_node`:
`"DROP" in sql.upper() or "DELETE" in sql.upper()`. -/
def destructive (sql : Str) : Bool :=
  listInfix ("DROP").data (upperStr sql) || listInfix ("DELETE").data (upperStr sql)

/-- Every successful execution event of the trace is immediately
followed by a recorded state whose error field is `none` and which
routes to answer composition (`should_retry` is false). -/
def ExecOkInv (tr : Trace) : Prop :=
  ∀ a s b, tr = a ++ Event.execCall s true :: b →
    ∃ st₃ b', b = Event.snap st₃ :: b' ∧ st₃.error = none ∧ should_retry st₃ = false

/-! ## Concrete oracles and inputs for witnesses and counterexamples -/

/-- A one-column, one-row result. -/
def dfOneCol : DataFrame := ⟨[("c1").data], [[("v").data]]⟩

/-- A three-column, one-row result. -/
def dfThreeCol : DataFrame :=
  ⟨[("a").data, ("b").data, ("c").data], [[("1").data, ("2").data, ("3").data]]⟩

/-- Store always fails; model always answers `SELECT 1`. -/
def oAlwaysFail : Oracles where
  schema := ("S").data
  llm := fun _ _ => .ok ("SELECT 1").data
  dbExec := fun _ _ => .error ("boom").data
  render := fun _ => []

/-- The model's validation round repairs the query into a `DROP`
statement; the store then executes it successfully. -/
def oRepair : Oracles where
  schema := ("S").data
  llm := fun n _ =>
    if n == 0 then .ok ("SELECT 1").data
    else if n == 1 then .ok ("```sql\nDROP TABLE t```").data
    else .ok ("done").data
  dbExec := fun _ _ => .ok dfOneCol
  render := fun _ => ("tbl").data

/-- Store error messages echo a rehydrated literal value. -/
def oLeak : Oracles where
  schema := ("S").data
  llm := fun _ _ => .ok ("SELECT 1").data
  dbExec := fun _ _ => .error ("no such column: a@b.c").data
  render := fun _ => []

/-- A healthy run: non-empty queries succeed with a one-column
result, the empty query is rejected. -/
def oSuccess : Oracles where
  schema := ("S").data
  llm := fun _ _ => .ok ("SELECT 1").data
  dbExec := fun _ s => if s.isEmpty then .error ("no query").data else .ok dfOneCol
  render := fun _ => ("tbl").data

/-- A healthy run returning a three-column result. -/
def oChart3 : Oracles where
  schema := ("S").data
  llm := fun _ _ => .ok ("SELECT 1").data
  dbExec := fun _ s => if s.isEmpty then .error ("no query").data else .ok dfThreeCol
  render := fun _ => ("tbl").data

/-- The text-generation service is down. -/
def oLlmDown : Oracles where
  schema := ("S").data
  llm := fun _ _ => .error ("APIConnectionError").data
  dbExec := fun _ _ => .error ("x").data
  render := fun _ => []

/-!
# Theorems

Everything below is proof: unfolding equations for the fuelled
definitions, a library of occurrence/replacement lemmas, structural
lemmas about the matcher and the pipeline nodes, and the claim
theorems with their witnesses and counterexamples.
-/

theorem replaceAllAux_fuel (pat rep : Str) :
    ∀ f₁ f₂ s, s.length ≤ f₁ → s.length ≤ f₂ →
      replaceAllAux pat rep f₁ s = replaceAllAux pat rep f₂ s := by
  intro f₁
  induction f₁ with
  | zero =>
    intro f₂ s h₁ _
    have hs : s = [] := List.eq_nil_of_length_eq_zero (Nat.le_zero.mp h₁)
    subst hs
    cases f₂ <;> rfl
  | succ f₁ ih =>
    intro f₂ s h₁ h₂
    cases s with
    | nil => cases f₂ <;> rfl
    | cons c rest =>
      cases f₂ with
      | zero => simp at h₂
      | succ f₂ =>
        simp only [replaceAllAux]
        cases hp : (!pat.isEmpty && pat.isPrefixOf (c :: rest)) with
        | true =>
          simp only [hp]
          have hpat : 0 < pat.length := by
            cases pat with
            | nil => simp at hp
            | cons _ _ => simp
          have hlen : ((c :: rest).drop pat.length).length ≤ f₁ := by
            simp only [List.length_drop, List.length_cons]
            simp only [List.length_cons] at h₁
            omega
          have hlen₂ : ((c :: rest).drop pat.length).length ≤ f₂ := by
            simp only [List.length_drop, List.length_cons]
            simp only [List.length_cons] at h₂
            omega
          rw [ih f₂ _ hlen hlen₂]
        | false =>
          simp only [hp]
          have hlen : rest.length ≤ f₁ := by
            simp only [List.length_cons] at h₁; omega
          have hlen₂ : rest.length ≤ f₂ := by
            simp only [List.length_cons] at h₂; omega
          rw [ih f₂ _ hlen hlen₂]

theorem replaceAll_nil (pat rep : Str) : replaceAll pat rep [] = [] := rfl

theorem replaceAll_cons_pos {pat : Str} (rep : Str) {c : Char} {rest : Str}
    (h : (!pat.isEmpty && pat.isPrefixOf (c :: rest)) = true) :
    replaceAll pat rep (c :: rest) =
      rep ++ replaceAll pat rep ((c :: rest).drop pat.length) := by
  have hpat : 0 < pat.length := by
    cases pat with
    | nil => simp at h
    | cons _ _ => simp
  simp only [replaceAll, List.length_cons, replaceAllAux, h]
  congr 1
  exact replaceAllAux_fuel pat rep _ _ _
    (by simp only [List.length_drop, List.length_cons]; omega) (Nat.le_refl _)

theorem replaceAll_cons_neg {pat : Str} (rep : Str) {c : Char} {rest : Str}
    (h : (!pat.isEmpty && pat.isPrefixOf (c :: rest)) = false) :
    replaceAll pat rep (c :: rest) = c :: replaceAll pat rep rest := by
  simp only [replaceAll, List.length_cons, replaceAllAux, h]

theorem natToDecAux_fuel :
    ∀ f₁ f₂ n, n < f₁ → n < f₂ → natToDecAux f₁ n = natToDecAux f₂ n := by
  intro f₁
  induction f₁ with
  | zero => intro f₂ n h₁; omega
  | succ f₁ ih =>
    intro f₂ n h₁ h₂
    cases f₂ with
    | zero => omega
    | succ f₂ =>
      simp only [natToDecAux]
      by_cases hn : n < 10
      · simp [hn]
      · simp only [hn, if_false]
        have hd : n / 10 < n := Nat.div_lt_self (by omega) (by omega)
        rw [ih f₂ (n / 10) (by omega) (by omega)]

theorem natToDec_lt (n : Nat) (h : n < 10) : natToDec n = [Nat.digitChar n] := by
  simp [natToDec, natToDecAux, h]

theorem natToDec_ge (n : Nat) (h : ¬ n < 10) :
    natToDec n = natToDec (n / 10) ++ [Nat.digitChar (n % 10)] := by
  have hd : n / 10 < n := Nat.div_lt_self (by omega) (by omega)
  have h1 : natToDecAux (n + 1) n = natToDecAux n (n / 10) ++ [Nat.digitChar (n % 10)] := by
    conv_lhs => rw [natToDecAux]
    rw [if_neg h]
  show natToDecAux (n + 1) n = natToDecAux (n / 10 + 1) (n / 10) ++ _
  rw [h1, natToDecAux_fuel n (n / 10 + 1) (n / 10) (by omega) (by omega)]

example : pii_filter_input "hi a@b.c".data =
    ("hi __EMAIL_1__".data, [("__EMAIL_1__".data, "a@b.c".data)]) := by decide

example : findallEmails "a@b.cd@e.fg".data = ["a@b.cd".data] := by decide

/-! ## Node characterizations -/

theorem llmMessages_append (t₁ t₂ : Trace) :
    llmMessages (t₁ ++ t₂) = llmMessages t₁ ++ llmMessages t₂ := by
  simp [llmMessages]

theorem execQueries_append (t₁ t₂ : Trace) :
    execQueries (t₁ ++ t₂) = execQueries t₁ ++ execQueries t₂ := by
  simp [execQueries]

theorem snapStates_append (t₁ t₂ : Trace) :
    snapStates (t₁ ++ t₂) = snapStates t₁ ++ snapStates t₂ := by
  simp [snapStates]

/-- On a destructive query, `check_sql_node` blocks: empty query,
error set, and no model call (only a state snapshot is recorded). -/
theorem check_sql_blocked {st : AgentState} (O : Oracles) (tr : Trace)
    (h : destructive st.sql_query = true) :
    check_sql_node O tr st =
      .ok ({ st with error := some unsafeQueryMsg, sql_query := [] },
        tr ++ [.snap { st with error := some unsafeQueryMsg, sql_query := [] }]) := by
  unfold destructive at h
  unfold check_sql_node
  rw [if_pos h]

/-! ## Claim C10 (validator blocks by plain substring) -/

/-- C10: the validator's destructive-keyword test is a plain substring
check on the uppercased query text: every query whose uppercased text
contains `DROP` or `DELETE` anywhere is blocked — the query is emptied,
the error is set, and no model call is made (the recorded messages do
not change). -/
theorem C10_validator_substring_block (O : Oracles) (tr : Trace) (st : AgentState)
    (h : destructive st.sql_query = true) :
    ∃ st' tr', check_sql_node O tr st = .ok (st', tr') ∧
      st'.sql_query = [] ∧ st'.error = some unsafeQueryMsg ∧
      llmMessages tr' = llmMessages tr := by
  refine ⟨_, _, check_sql_blocked O tr h, rfl, rfl, ?_⟩
  simp [llmMessages_append, llmMessages]

/-- C10 witness: `SELECT * FROM deleted_orders` is not a destructive
statement, yet it is blocked. -/
theorem C10_validator_substring_block_witness :
    destructive ("SELECT * FROM deleted_orders").data = true ∧
    (∃ st' tr',
      check_sql_node oAlwaysFail []
        { initState [] with sql_query := ("SELECT * FROM deleted_orders").data } = .ok (st', tr') ∧
      st'.sql_query = [] ∧ st'.error = some unsafeQueryMsg ∧
      llmMessages tr' = llmMessages []) :=
  ⟨by decide, C10_validator_substring_block oAlwaysFail []
    { initState [] with sql_query := ("SELECT * FROM deleted_orders").data } (by decide)⟩

/-! ## Claim C6 (chart projection gating) -/

/-- C6 counterexample: a successful execution of a three-column,
one-row result produces a chart projection whose column-names field
lists all three column names — not "exactly the pair
[name of column 0, name of column 1]" stated by the claim. -/
theorem C6_chart_pair_counterexample :
    (execute_sql_node oChart3 []
        { initState [] with sql_query := ("SELECT 1").data }).1.chart_data =
      some ⟨[("1").data], [("2").data], [("a").data, ("b").data, ("c").data]⟩ ∧
    (([("a").data, ("b").data, ("c").data] : List Str).length ≠ 2) := by
  constructor
  · decide
  · decide

/-- C6 amended: on a successful execution the chart projection is
produced iff the result has at least one row and at least two
columns; when produced, its labels are the column-0 values and its
values the column-1 values in row order, and its column-names field
is the full list of the result's column names (not just the first
two). -/
theorem C6_chart_gating (O : Oracles) (tr : Trace) (st : AgentState) (df : DataFrame)
    (h : O.dbExec (execCount tr) (rehydrateStr st.pii_map st.sql_query) = .ok df) :
    (execute_sql_node O tr st).1.chart_data =
      (if df.rows ≠ [] ∧ 2 ≤ df.cols.length then
        some ⟨df.colValues 0, df.colValues 1, df.cols⟩
      else none) := by
  simp only [execute_sql_node, h]
  by_cases h2 : 2 ≤ df.cols.length
  · by_cases h1 : df.rows = []
    · have he : df.empty = true := by
        simp [DataFrame.empty, h1]
      simp [he, h1]
    · have he : df.empty = false := by
        have hc : df.cols ≠ [] := by
          intro hc
          rw [hc] at h2
          simp at h2
        simp [DataFrame.empty, h1, hc]
      simp [he, h1, h2]
  · have h2' : ¬ (df.rows ≠ [] ∧ 2 ≤ df.cols.length) := by
      intro hx
      exact h2 hx.2
    simp [h2, h2']

/-- C6 witness: a three-column one-row success produces the
projection with all three column names. -/
theorem C6_chart_gating_witness :
    (execute_sql_node oChart3 []
        { initState [] with sql_query := ("SELECT 1").data }).1.chart_data =
      (if dfThreeCol.rows ≠ [] ∧ 2 ≤ dfThreeCol.cols.length then
        some ⟨dfThreeCol.colValues 0, dfThreeCol.colValues 1, dfThreeCol.cols⟩
      else none) :=
  C6_chart_gating oChart3 [] _ dfThreeCol rfl

/-! ## Closed counterexamples for run-level claims -/

/-- C2 counterexample: with an always-failing store the pipeline makes
exactly 3 execution attempts, not the 4 the claim states. -/
theorem C2_three_attempts_counterexample :
    (runPipeline oAlwaysFail 12 ("hi").data).toOption.map
        (fun p => (execQueries p.2).length) = some 3 ∧
    (runPipeline oAlwaysFail 12 ("hi").data).toOption.map
        (fun p => (execQueries p.2).length) ≠ some 4 := by
  constructor
  · decide
  · decide

/-- C3 counterexample: the validator's repair path is not re-checked —
the model's "fixed" query `DROP TABLE t` is passed to the relational
store and executed, refuting "no query text containing DROP or DELETE
is ever passed to the relational store". -/
theorem C3_repair_reaches_store_counterexample :
    (runPipeline oRepair 12 ("hi").data).toOption.map (fun p => execQueries p.2) =
      some [(("DROP TABLE t").data, true)] ∧
    destructive ("DROP TABLE t").data = true := by
  constructor
  · decide
  · decide

/-- C7 counterexample: a failure of the text-generation service during
SQL synthesis propagates as an exception — the run terminates with no
final answer at all, not with an error-prefixed answer string. -/
theorem C7_llm_failure_counterexample :
    runPipeline oLlmDown 12 ("hi").data = .error ("APIConnectionError").data := rfl

/-- C1 counterexample: on the terminal error-answer path the last
execution error message is embedded verbatim in the final answer, so a
store error that echoes the rehydrated literal value leaks it: the
final answer contains the real value `a@b.c` of the placeholder map. -/
theorem C1_error_answer_leak_counterexample :
    (runPipeline oLeak 12 ("mail a@b.c").data).toOption.map (fun p => p.1.final_answer) =
      some ("Error: no such column: a@b.c").data ∧
    ("a@b.c").data ∈ mapValues (pii_filter_input ("mail a@b.c").data).2 ∧
    ("a@b.c").data <:+: ("Error: no such column: a@b.c").data := by
  refine ⟨by decide, by decide, ?_⟩
  exact ⟨("Error: no such column: ").data, [], by decide⟩

/-- C5 counterexample: for the input `q@w.ee@b.cc L_1__@b.cc` (which
contains no placeholder token, and in which each matched value occurs
exactly once) re-substituting the placeholders of the sanitized text
does not reproduce the original text. -/
theorem C5_roundtrip_counterexample :
    rehydrateStr (pii_filter_input ("q@w.ee@b.cc L_1__@b.cc").data).2
        (pii_filter_input ("q@w.ee@b.cc L_1__@b.cc").data).1 ≠
      ("q@w.ee@b.cc L_1__@b.cc").data := by
  decide

/-- C4 counterexample: the text `a@b.c a@b.c m@n.oo@e.fg` contains 2
distinct email-shaped substrings but `tokenize` produces 3 map
entries (one per match occurrence), and the sanitized text still
contains an email-shaped substring. -/
theorem C4_tokenize_counterexample :
    (pii_filter_input ("a@b.c a@b.c m@n.oo@e.fg").data).2.length = 3 ∧
    (findallEmails ("a@b.c a@b.c m@n.oo@e.fg").data).dedup.length = 2 ∧
    findallEmails ((pii_filter_input ("a@b.c a@b.c m@n.oo@e.fg").data).1) ≠ [] := by
  refine ⟨by decide, by decide, by decide⟩

/-! ## Node shape lemmas -/

/-- The messages `generate_sql_node` sends. -/
theorem gen_ok_shape (O : Oracles) (tr : Trace) (st : AgentState)
    (hllm : ∀ n m, ∃ r, O.llm n m = .ok r) :
    ∃ st' resp,
      generate_sql_node O tr st =
        .ok (st', tr ++ [.llmCall [⟨Role.system, genPrompt O.schema⟩,
          ⟨Role.human, userQuestionTag ++ (pii_filter_input st.question).1⟩] resp, .snap st']) ∧
      st' = { st with
        sql_query := stripFences resp
        sanitized_question := (pii_filter_input st.question).1
        pii_map := (pii_filter_input st.question).2 } := by
  obtain ⟨r, hr⟩ := hllm (llmCount tr) [⟨Role.system, genPrompt O.schema⟩,
    ⟨Role.human, userQuestionTag ++ (pii_filter_input st.question).1⟩]
  refine ⟨_, r, ?_, rfl⟩
  simp only [generate_sql_node, hr]

/-- `check_sql_node` under a total model oracle: always returns, never
touches `question`, `sanitized_question`, `pii_map`, `retry_count`,
`query_result`, `final_answer`, `chart_data`, adds no execution event,
records exactly one snapshot (the returned state), and leaves the
state either unblocked with `error = none` or blocked with the empty
query. -/
theorem check_ok_shape (O : Oracles) (tr : Trace) (st : AgentState)
    (hllm : ∀ n m, ∃ r, O.llm n m = .ok r) :
    ∃ st' tr', check_sql_node O tr st = .ok (st', tr') ∧
      st'.question = st.question ∧ st'.sanitized_question = st.sanitized_question ∧
      st'.pii_map = st.pii_map ∧ st'.retry_count = st.retry_count ∧
      st'.query_result = st.query_result ∧ st'.final_answer = st.final_answer ∧
      st'.chart_data = st.chart_data ∧
      (st'.error = none ∨ (st'.error = some unsafeQueryMsg ∧ st'.sql_query = [])) ∧
      execQueries tr' = execQueries tr ∧
      snapStates tr' = snapStates tr ++ [st'] := by
  by_cases hd : destructive st.sql_query = true
  · refine ⟨_, _, check_sql_blocked O tr hd, rfl, rfl, rfl, rfl, rfl, rfl, rfl,
      Or.inr ⟨rfl, rfl⟩, ?_, ?_⟩
    · simp [execQueries_append, execQueries]
    · simp [snapStates_append, snapStates]
  · rw [Bool.not_eq_true] at hd
    obtain ⟨r, hr⟩ := hllm (llmCount tr) [⟨Role.system, checkPrompt O.schema st.sql_query⟩]
    unfold destructive at hd
    by_cases hc : listInfix correctTag (upperStr (pyStrip r)) = true
    · have hC : check_sql_node O tr st =
        .ok ({ st with error := none },
          tr ++ [.llmCall [⟨Role.system, checkPrompt O.schema st.sql_query⟩] r,
                 .snap { st with error := none }]) := by
        simp [check_sql_node, hd, hr, hc]
      refine ⟨_, _, hC, rfl, rfl, rfl, rfl, rfl, rfl, rfl, Or.inl rfl, ?_, ?_⟩
      · simp [execQueries_append, execQueries]
      · simp [snapStates_append, snapStates]
    · cases hx : extractFenced (pyStrip r) with
      | some inner =>
        have hC : check_sql_node O tr st =
          .ok ({ st with sql_query := pyStrip inner, error := none },
            tr ++ [.llmCall [⟨Role.system, checkPrompt O.schema st.sql_query⟩] r,
                   .snap { st with sql_query := pyStrip inner, error := none }]) := by
          simp [check_sql_node, hd, hr, hc, hx]
        refine ⟨_, _, hC, rfl, rfl, rfl, rfl, rfl, rfl, rfl, Or.inl rfl, ?_, ?_⟩
        · simp [execQueries_append, execQueries]
        · simp [snapStates_append, snapStates]
      | none =>
        have hC : check_sql_node O tr st =
          .ok ({ st with sql_query := stripFences (pyStrip r), error := none },
            tr ++ [.llmCall [⟨Role.system, checkPrompt O.schema st.sql_query⟩] r,
                   .snap { st with sql_query := stripFences (pyStrip r), error := none }]) := by
          simp [check_sql_node, hd, hr, hc, hx]
        refine ⟨_, _, hC, rfl, rfl, rfl, rfl, rfl, rfl, rfl, Or.inl rfl, ?_, ?_⟩
        · simp [execQueries_append, execQueries]
        · simp [snapStates_append, snapStates]

/-- `execute_sql_node` on a store failure. -/
theorem exec_fail_shape (O : Oracles) (tr : Trace) (st : AgentState) (e : Str)
    (hdb : O.dbExec (execCount tr) (rehydrateStr st.pii_map st.sql_query) = .error e) :
    execute_sql_node O tr st =
      ({ st with error := some e, retry_count := st.retry_count + 1 },
       tr ++ [.execCall (rehydrateStr st.pii_map st.sql_query) false,
              .snap { st with error := some e, retry_count := st.retry_count + 1 }]) := by
  simp only [execute_sql_node, hdb]

/-- `execute_sql_node` on a store success. -/
theorem exec_ok_shape (O : Oracles) (tr : Trace) (st : AgentState) (df : DataFrame)
    (hdb : O.dbExec (execCount tr) (rehydrateStr st.pii_map st.sql_query) = .ok df) :
    execute_sql_node O tr st =
      ({ st with
          query_result := redact_result_data (O.render df) st.pii_map
          chart_data := if !df.empty && decide (2 ≤ df.cols.length) then
              some ⟨df.colValues 0, df.colValues 1, df.cols⟩
            else none },
       tr ++ [.execCall (rehydrateStr st.pii_map st.sql_query) true,
              .snap { st with
                query_result := redact_result_data (O.render df) st.pii_map
                chart_data := if !df.empty && decide (2 ≤ df.cols.length) then
                    some ⟨df.colValues 0, df.colValues 1, df.cols⟩
                  else none }]) := by
  simp only [execute_sql_node, hdb]

/-- `generate_answer_node` on a truthy error. -/
theorem answer_err_shape (O : Oracles) (tr : Trace) (st : AgentState)
    (h : errTruthy st.error = true) :
    generate_answer_node O tr st =
      .ok ({ st with final_answer := errorAnswerTag ++ st.error.getD [] },
        tr ++ [.snap { st with final_answer := errorAnswerTag ++ st.error.getD [] }]) := by
  simp only [generate_answer_node, h, if_pos]

/-- `generate_answer_node` on the success path. -/
theorem answer_ok_shape (O : Oracles) (tr : Trace) (st : AgentState)
    (h : errTruthy st.error = false)
    (hllm : ∀ n m, ∃ r, O.llm n m = .ok r) :
    ∃ resp,
      generate_answer_node O tr st =
        .ok ({ st with final_answer := scrubAnswer st.pii_map resp },
          tr ++ [.llmCall [⟨Role.human,
              answerPrompt st.sanitized_question st.sql_query st.query_result⟩] resp,
            .snap { st with final_answer := scrubAnswer st.pii_map resp }]) := by
  obtain ⟨r, hr⟩ := hllm (llmCount tr)
    [⟨Role.human, answerPrompt st.sanitized_question st.sql_query st.query_result⟩]
  refine ⟨r, ?_⟩
  simp only [generate_answer_node, h, Bool.false_eq_true, if_false, hr]

theorem errTruthy_some_ne {e : Str} (h : e ≠ []) : errTruthy (some e) = true := by
  cases e with
  | nil => exact absurd rfl h
  | cons c cs => rfl

/-- One loop iteration under a total model and an always-failing
store: the retry counter increases by exactly one, the error is set
to a non-empty message, and exactly one (failing) execution event is
recorded. -/
theorem always_fail_iter (O : Oracles)
    (hllm : ∀ n m, ∃ r, O.llm n m = .ok r)
    (hdb : ∀ n s, ∃ e, O.dbExec n s = .error e ∧ e ≠ [])
    (fuel : Nat) (st : AgentState) (tr : Trace) :
    ∃ st₃ tr₃ e x,
      pipelineLoop O (fuel + 1) st tr =
        (if should_retry st₃ then pipelineLoop O fuel st₃ tr₃
         else generate_answer_node O tr₃ st₃) ∧
      st₃.retry_count = st.retry_count + 1 ∧
      st₃.error = some e ∧ e ≠ [] ∧
      st₃.question = st.question ∧
      st₃.final_answer = st.final_answer ∧
      execQueries tr₃ = execQueries tr ++ [(x, false)] := by
  obtain ⟨st₁, resp, hgen, hst₁⟩ := gen_ok_shape O tr st hllm
  obtain ⟨st₂, tr₂, hchk, hq₂, hsq₂, hpm₂, hrc₂, hqr₂, hfa₂, hcd₂, herr₂, hxq₂, hsn₂⟩ :=
    check_ok_shape O (tr ++ [.llmCall [⟨Role.system, genPrompt O.schema⟩,
      ⟨Role.human, userQuestionTag ++ (pii_filter_input st.question).1⟩] resp, .snap st₁]) st₁ hllm
  obtain ⟨e, he, hne⟩ := hdb (execCount tr₂) (rehydrateStr st₂.pii_map st₂.sql_query)
  have hex := exec_fail_shape O tr₂ st₂ e he
  refine ⟨{ st₂ with error := some e, retry_count := st₂.retry_count + 1 },
    tr₂ ++ [.execCall (rehydrateStr st₂.pii_map st₂.sql_query) false,
      .snap { st₂ with error := some e, retry_count := st₂.retry_count + 1 }], e,
    rehydrateStr st₂.pii_map st₂.sql_query, ?_, ?_, rfl, hne, ?_, ?_, ?_⟩
  · show pipelineLoop O (fuel + 1) st tr = _
    simp only [pipelineLoop, hgen, hchk, hex]
  · simp only [hrc₂]
    rw [hst₁]
  · simpa using hq₂.trans (by rw [hst₁])
  · simpa using hfa₂.trans (by rw [hst₁])
  · rw [execQueries_append, hxq₂, execQueries_append]
    simp [execQueries]

/-- `generate_sql_node` preserves the retry counter
(`"retry_count": state.get("retry_count", 0)`). -/
theorem gen_rc (O : Oracles) (tr : Trace) (st st' : AgentState) (tr' : Trace)
    (h : generate_sql_node O tr st = .ok (st', tr')) :
    st'.retry_count = st.retry_count := by
  cases hr : O.llm (llmCount tr) [⟨Role.system, genPrompt O.schema⟩,
      ⟨Role.human, userQuestionTag ++ (pii_filter_input st.question).1⟩] with
  | error e => simp [generate_sql_node, hr] at h
  | ok r =>
    simp only [generate_sql_node, hr, Except.ok.injEq, Prod.mk.injEq] at h
    rw [← h.1]

/-- `check_sql_node` never touches the retry counter. -/
theorem check_rc (O : Oracles) (tr : Trace) (st st' : AgentState) (tr' : Trace)
    (h : check_sql_node O tr st = .ok (st', tr')) :
    st'.retry_count = st.retry_count := by
  by_cases hd : destructive st.sql_query = true
  · rw [check_sql_blocked O tr hd, Except.ok.injEq, Prod.mk.injEq] at h
    rw [← h.1]
  · rw [Bool.not_eq_true] at hd
    unfold destructive at hd
    cases hr : O.llm (llmCount tr) [⟨Role.system, checkPrompt O.schema st.sql_query⟩] with
    | error e => simp [check_sql_node, hd, hr] at h
    | ok r =>
      by_cases hc : listInfix correctTag (upperStr (pyStrip r)) = true
      · simp only [check_sql_node, hd, Bool.or_self, Bool.false_eq_true, if_false, hr, hc,
          if_true, Except.ok.injEq, Prod.mk.injEq] at h
        rw [← h.1]
      · cases hx : extractFenced (pyStrip r) with
        | some inner =>
          simp only [check_sql_node, hd, Bool.or_self, Bool.false_eq_true, if_false, hr, hc,
            hx, Except.ok.injEq, Prod.mk.injEq] at h
          rw [← h.1]
        | none =>
          simp only [check_sql_node, hd, Bool.or_self, Bool.false_eq_true, if_false, hr, hc,
            hx, Except.ok.injEq, Prod.mk.injEq] at h
          rw [← h.1]

/-- `generate_answer_node` never touches the retry counter. -/
theorem answer_rc (O : Oracles) (tr : Trace) (st st' : AgentState) (tr' : Trace)
    (h : generate_answer_node O tr st = .ok (st', tr')) :
    st'.retry_count = st.retry_count := by
  by_cases he : errTruthy st.error = true
  · rw [answer_err_shape O tr st he, Except.ok.injEq, Prod.mk.injEq] at h
    rw [← h.1]
  · rw [Bool.not_eq_true] at he
    cases hr : O.llm (llmCount tr)
        [⟨Role.human, answerPrompt st.sanitized_question st.sql_query st.query_result⟩] with
    | error e => simp [generate_answer_node, he, hr] at h
    | ok r =>
      simp only [generate_answer_node, he, Bool.false_eq_true, if_false, hr,
        Except.ok.injEq, Prod.mk.injEq] at h
      rw [← h.1]

/-! ## Claim C2 (retry bound) -/

/-- C2 amended: for a query that fails execution on every attempt
(with non-empty error messages and a responsive model), the pipeline
performs exactly 3 execution attempts (the initial attempt plus 2
retries) and terminates into answer composition with the last error
preserved, for every recursion budget of at least 3 (it never loops
further); and across all nodes the retry counter is incremented on
execution failure and only there. -/
theorem C2_retry_bound_amended (O : Oracles) (q : Str) (fuel : Nat)
    (hllm : ∀ n m, ∃ r, O.llm n m = .ok r)
    (hdb : ∀ n s, ∃ e, O.dbExec n s = .error e ∧ e ≠ [])
    (hfuel : 3 ≤ fuel) :
    (∃ st tr e, runPipeline O fuel q = .ok (st, tr) ∧
      (execQueries tr).length = 3 ∧ (∀ p ∈ execQueries tr, p.2 = false) ∧
      st.retry_count = 3 ∧ st.error = some e ∧ e ≠ [] ∧
      st.final_answer = errorAnswerTag ++ e) ∧
    (∀ (O' : Oracles) (tr' : Trace) (st' st'' : AgentState) (tr'' : Trace),
      generate_sql_node O' tr' st' = .ok (st'', tr'') →
        st''.retry_count = st'.retry_count) ∧
    (∀ (O' : Oracles) (tr' : Trace) (st' st'' : AgentState) (tr'' : Trace),
      check_sql_node O' tr' st' = .ok (st'', tr'') →
        st''.retry_count = st'.retry_count) ∧
    (∀ (O' : Oracles) (tr' : Trace) (st' : AgentState) (df : DataFrame),
      O'.dbExec (execCount tr') (rehydrateStr st'.pii_map st'.sql_query) = .ok df →
        (execute_sql_node O' tr' st').1.retry_count = st'.retry_count) ∧
    (∀ (O' : Oracles) (tr' : Trace) (st' : AgentState) (e : Str),
      O'.dbExec (execCount tr') (rehydrateStr st'.pii_map st'.sql_query) = .error e →
        (execute_sql_node O' tr' st').1.retry_count = st'.retry_count + 1) ∧
    (∀ (O' : Oracles) (tr' : Trace) (st' st'' : AgentState) (tr'' : Trace),
      generate_answer_node O' tr' st' = .ok (st'', tr'') →
        st''.retry_count = st'.retry_count) := by
  refine ⟨?_, gen_rc, check_rc, ?_, ?_, answer_rc⟩
  · obtain ⟨k, rfl⟩ : ∃ k, fuel = k + 3 := ⟨fuel - 3, by omega⟩
    unfold runPipeline
    obtain ⟨s₁, t₁, e₁, x₁, hEq₁, hrc₁, herr₁, hne₁, hq₁, hfa₁, hex₁⟩ :=
      always_fail_iter O hllm hdb (k + 2) (initState q) []
    have hret₁ : should_retry s₁ = true := by
      simp [should_retry, herr₁, errTruthy_some_ne hne₁, hrc₁, initState]
    rw [show k + 3 = (k + 2) + 1 by omega] at hEq₁
    rw [hEq₁, if_pos hret₁]
    obtain ⟨s₂, t₂, e₂, x₂, hEq₂, hrc₂, herr₂, hne₂, hq₂, hfa₂, hex₂⟩ :=
      always_fail_iter O hllm hdb (k + 1) s₁ t₁
    have hret₂ : should_retry s₂ = true := by
      simp [should_retry, herr₂, errTruthy_some_ne hne₂, hrc₂, hrc₁, initState]
    rw [hEq₂, if_pos hret₂]
    obtain ⟨s₃, t₃, e₃, x₃, hEq₃, hrc₃, herr₃, hne₃, hq₃, hfa₃, hex₃⟩ :=
      always_fail_iter O hllm hdb k s₂ t₂
    have hrc₃' : s₃.retry_count = 3 := by
      rw [hrc₃, hrc₂, hrc₁]
      rfl
    have hret₃ : should_retry s₃ = false := by
      simp [should_retry, hrc₃']
    rw [hEq₃, if_neg (by simp [hret₃])]
    have hans := answer_err_shape O t₃ s₃ (by rw [herr₃]; exact errTruthy_some_ne hne₃)
    rw [hans]
    refine ⟨_, _, e₃, rfl, ?_, ?_, ?_, ?_, hne₃, ?_⟩
    · rw [execQueries_append, hex₃, hex₂, hex₁]
      simp [execQueries]
    · intro p hp
      rw [execQueries_append, hex₃, hex₂, hex₁] at hp
      simp only [execQueries, List.filterMap_nil, List.filterMap_cons, List.nil_append,
        List.append_nil, List.mem_append, List.mem_singleton] at hp
      rcases hp with ((h | h) | h) <;> rw [h]
    · exact hrc₃'
    · exact herr₃
    · simp [herr₃]
  · intro O' tr' st' df h
    rw [exec_ok_shape O' tr' st' df h]
  · intro O' tr' st' e h
    rw [exec_fail_shape O' tr' st' e h]

/-- C2 witness: the always-failing store with a responsive model, on
question `hi`, with recursion budget 12. -/
theorem C2_retry_bound_amended_witness :
    (∃ st tr e, runPipeline oAlwaysFail 12 ("hi").data = .ok (st, tr) ∧
      (execQueries tr).length = 3 ∧ (∀ p ∈ execQueries tr, p.2 = false) ∧
      st.retry_count = 3 ∧ st.error = some e ∧ e ≠ [] ∧
      st.final_answer = errorAnswerTag ++ e) ∧
    (∀ (O' : Oracles) (tr' : Trace) (st' st'' : AgentState) (tr'' : Trace),
      generate_sql_node O' tr' st' = .ok (st'', tr'') →
        st''.retry_count = st'.retry_count) ∧
    (∀ (O' : Oracles) (tr' : Trace) (st' st'' : AgentState) (tr'' : Trace),
      check_sql_node O' tr' st' = .ok (st'', tr'') →
        st''.retry_count = st'.retry_count) ∧
    (∀ (O' : Oracles) (tr' : Trace) (st' : AgentState) (df : DataFrame),
      O'.dbExec (execCount tr') (rehydrateStr st'.pii_map st'.sql_query) = .ok df →
        (execute_sql_node O' tr' st').1.retry_count = st'.retry_count) ∧
    (∀ (O' : Oracles) (tr' : Trace) (st' : AgentState) (e : Str),
      O'.dbExec (execCount tr') (rehydrateStr st'.pii_map st'.sql_query) = .error e →
        (execute_sql_node O' tr' st').1.retry_count = st'.retry_count + 1) ∧
    (∀ (O' : Oracles) (tr' : Trace) (st' st'' : AgentState) (tr'' : Trace),
      generate_answer_node O' tr' st' = .ok (st'', tr'') →
        st''.retry_count = st'.retry_count) :=
  C2_retry_bound_amended oAlwaysFail ("hi").data 12
    (fun _ _ => ⟨("SELECT 1").data, rfl⟩)
    (fun _ _ => ⟨("boom").data, rfl, by decide⟩)
    (by omega)

/-- Re-hydration of the empty query is the empty query. -/
theorem rehydrate_nil (m : List (Str × Str)) : rehydrateStr m [] = [] := by
  induction m with
  | nil => rfl
  | cons pv m ih =>
    show rehydrateStr m (replaceAll pv.1 pv.2 []) = []
    rw [replaceAll_nil]
    exact ih

/-- One loop iteration under a total model oracle, up to the
execution step: the state reaching the executor has the same
question, retry counter and final answer, carries the tokenization of
the question, and is either unblocked (`error = none`) or blocked
with the empty query. -/
theorem iter_shape (O : Oracles) (hllm : ∀ n m, ∃ r, O.llm n m = .ok r)
    (fuel : Nat) (st : AgentState) (tr : Trace) :
    ∃ st₂ tr₂,
      pipelineLoop O (fuel + 1) st tr =
        (if should_retry (execute_sql_node O tr₂ st₂).1
         then pipelineLoop O fuel (execute_sql_node O tr₂ st₂).1 (execute_sql_node O tr₂ st₂).2
         else generate_answer_node O (execute_sql_node O tr₂ st₂).2 (execute_sql_node O tr₂ st₂).1) ∧
      st₂.question = st.question ∧ st₂.retry_count = st.retry_count ∧
      st₂.final_answer = st.final_answer ∧
      st₂.pii_map = (pii_filter_input st.question).2 ∧
      st₂.sanitized_question = (pii_filter_input st.question).1 ∧
      (st₂.error = none ∨ (st₂.error = some unsafeQueryMsg ∧ st₂.sql_query = [])) ∧
      execQueries tr₂ = execQueries tr := by
  obtain ⟨st₁, resp, hgen, hst₁⟩ := gen_ok_shape O tr st hllm
  obtain ⟨st₂, tr₂, hchk, hq₂, hsq₂, hpm₂, hrc₂, hqr₂, hfa₂, hcd₂, herr₂, hxq₂, hsn₂⟩ :=
    check_ok_shape O (tr ++ [.llmCall [⟨Role.system, genPrompt O.schema⟩,
      ⟨Role.human, userQuestionTag ++ (pii_filter_input st.question).1⟩] resp, .snap st₁]) st₁ hllm
  refine ⟨st₂, tr₂, ?_, ?_, ?_, ?_, ?_, ?_, herr₂, ?_⟩
  · simp only [pipelineLoop, hgen, hchk]
  · rw [hq₂, hst₁]
  · rw [hrc₂, hst₁]
  · rw [hfa₂, hst₁]
  · rw [hpm₂, hst₁]
  · rw [hsq₂, hst₁]
  · rw [hxq₂, execQueries_append]
    simp [execQueries]

/-- Totality of the loop: with a responsive model and a store that
rejects the empty query, the loop always terminates with a final
answer — the error template on a truthy error, the scrubbed model
answer otherwise. -/
theorem loop_total (O : Oracles)
    (hllm : ∀ n m, ∃ r, O.llm n m = .ok r)
    (hdb0 : ∀ n df, O.dbExec n [] ≠ .ok df) :
    ∀ fuel (st : AgentState) (tr : Trace), 3 - st.retry_count < fuel →
      ∃ st' tr', pipelineLoop O fuel st tr = .ok (st', tr') ∧
        ((∃ e, errTruthy st'.error = true ∧ st'.error = some e ∧
            st'.final_answer = errorAnswerTag ++ e) ∨
         (∃ resp, errTruthy st'.error = false ∧
            st'.final_answer = scrubAnswer st'.pii_map resp)) := by
  intro fuel
  induction fuel with
  | zero => intro st tr h; omega
  | succ fuel ih =>
    intro st tr hf
    obtain ⟨st₂, tr₂, hEq, hq₂, hrc₂, hfa₂, hpm₂, hsq₂, herr₂, hxq₂⟩ :=
      iter_shape O hllm fuel st tr
    cases hdbr : O.dbExec (execCount tr₂) (rehydrateStr st₂.pii_map st₂.sql_query) with
    | ok df =>
      have herr₂' : st₂.error = none := by
        rcases herr₂ with h | ⟨he, hsql⟩
        · exact h
        · exfalso
          rw [hsql, rehydrate_nil] at hdbr
          exact hdb0 _ df hdbr
      have hex := exec_ok_shape O tr₂ st₂ df hdbr
      rw [hex] at hEq
      rw [hEq, if_neg (by simp [should_retry, errTruthy, herr₂'])]
      obtain ⟨ra, hans⟩ := answer_ok_shape O
        (tr₂ ++ [.execCall (rehydrateStr st₂.pii_map st₂.sql_query) true,
          .snap { st₂ with
            query_result := redact_result_data (O.render df) st₂.pii_map
            chart_data := if !df.empty && decide (2 ≤ df.cols.length) then
                some ⟨df.colValues 0, df.colValues 1, df.cols⟩
              else none }])
        { st₂ with
            query_result := redact_result_data (O.render df) st₂.pii_map
            chart_data := if !df.empty && decide (2 ≤ df.cols.length) then
                some ⟨df.colValues 0, df.colValues 1, df.cols⟩
              else none }
        (by simp [errTruthy, herr₂']) hllm
      rw [hans]
      exact ⟨_, _, rfl, Or.inr ⟨ra, by simp [errTruthy, herr₂'], rfl⟩⟩
    | error e =>
      have hex := exec_fail_shape O tr₂ st₂ e hdbr
      rw [hex] at hEq
      by_cases hret : should_retry
          { st₂ with error := some e, retry_count := st₂.retry_count + 1 } = true
      · have hlt : st₂.retry_count + 1 < 3 := by
          simp only [should_retry, Bool.and_eq_true, decide_eq_true_eq] at hret
          exact hret.2
        obtain ⟨st', tr', hloop, hconc⟩ := ih
          { st₂ with error := some e, retry_count := st₂.retry_count + 1 } _
          (by simp only []; omega)
        rw [hEq, if_pos hret]
        exact ⟨st', tr', hloop, hconc⟩
      · rw [Bool.not_eq_true] at hret
        rw [hEq, if_neg (by simp [hret])]
        by_cases hne : e = []
        · subst hne
          obtain ⟨ra, hans⟩ := answer_ok_shape O
            (tr₂ ++ [.execCall (rehydrateStr st₂.pii_map st₂.sql_query) false,
              .snap { st₂ with error := some [], retry_count := st₂.retry_count + 1 }])
            { st₂ with error := some [], retry_count := st₂.retry_count + 1 }
            (by simp [errTruthy]) hllm
          rw [hans]
          exact ⟨_, _, rfl, Or.inr ⟨ra, by simp [errTruthy], rfl⟩⟩
        · have hans := answer_err_shape O
            (tr₂ ++ [.execCall (rehydrateStr st₂.pii_map st₂.sql_query) false,
              .snap { st₂ with error := some e, retry_count := st₂.retry_count + 1 }])
            { st₂ with error := some e, retry_count := st₂.retry_count + 1 }
            (errTruthy_some_ne hne)
          rw [hans]
          exact ⟨_, _, rfl, Or.inl ⟨e, errTruthy_some_ne hne, rfl, rfl⟩⟩

/-! ## Claim C7 (terminal answer on every error kind) -/

/-- C7 amended: if every text-generation call succeeds and the store
rejects the empty query, every run (budget ≥ 4) terminates with a
final answer — an `Error: `-prefixed string when the error field is
truthy, the scrubbed model answer otherwise.  A failure of the
text-generation service is NOT recovered: it propagates as an
exception and the run terminates with no final answer (see the
counterexample). -/
theorem C7_terminal_answer_amended (O : Oracles) (q : Str) (fuel : Nat)
    (hllm : ∀ n m, ∃ r, O.llm n m = .ok r)
    (hdb0 : ∀ n df, O.dbExec n [] ≠ .ok df)
    (hfuel : 4 ≤ fuel) :
    ∃ st tr, runPipeline O fuel q = .ok (st, tr) ∧
      ((∃ e, errTruthy st.error = true ∧ st.error = some e ∧
          st.final_answer = errorAnswerTag ++ e) ∨
       (∃ resp, errTruthy st.error = false ∧
          st.final_answer = scrubAnswer st.pii_map resp)) := by
  exact loop_total O hllm hdb0 fuel (initState q) [] (by simp [initState]; omega)

/-- C7 witness: a healthy store (rejecting only the empty query) and
a responsive model produce a final answer on question `hi`. -/
theorem C7_terminal_answer_amended_witness :
    ∃ st tr, runPipeline oSuccess 12 ("hi").data = .ok (st, tr) ∧
      ((∃ e, errTruthy st.error = true ∧ st.error = some e ∧
          st.final_answer = errorAnswerTag ++ e) ∨
       (∃ resp, errTruthy st.error = false ∧
          st.final_answer = scrubAnswer st.pii_map resp)) :=
  C7_terminal_answer_amended oSuccess ("hi").data 12
    (fun _ _ => ⟨("SELECT 1").data, rfl⟩)
    (fun n df h => by simp [oSuccess] at h)
    (by omega)

/-! ## Node inversion lemmas -/

/-- Inversion for `generate_sql_node`. -/
theorem gen_inv {O : Oracles} {tr : Trace} {st st' : AgentState} {tr' : Trace}
    (h : generate_sql_node O tr st = .ok (st', tr')) :
    ∃ resp,
      st' = { st with
        sql_query := stripFences resp
        sanitized_question := (pii_filter_input st.question).1
        pii_map := (pii_filter_input st.question).2 } ∧
      tr' = tr ++ [.llmCall [⟨Role.system, genPrompt O.schema⟩,
        ⟨Role.human, userQuestionTag ++ (pii_filter_input st.question).1⟩] resp, .snap st'] := by
  cases hr : O.llm (llmCount tr) [⟨Role.system, genPrompt O.schema⟩,
      ⟨Role.human, userQuestionTag ++ (pii_filter_input st.question).1⟩] with
  | error e => simp [generate_sql_node, hr] at h
  | ok r =>
    simp only [generate_sql_node, hr, Except.ok.injEq, Prod.mk.injEq] at h
    exact ⟨r, h.1.symm, by rw [← h.2, ← h.1]⟩

/-- Inversion for `check_sql_node`. -/
theorem check_inv {O : Oracles} {tr : Trace} {st st' : AgentState} {tr' : Trace}
    (h : check_sql_node O tr st = .ok (st', tr')) :
    st'.question = st.question ∧ st'.sanitized_question = st.sanitized_question ∧
    st'.pii_map = st.pii_map ∧ st'.retry_count = st.retry_count ∧
    st'.query_result = st.query_result ∧ st'.final_answer = st.final_answer ∧
    (st'.error = none ∨ (st'.error = some unsafeQueryMsg ∧ st'.sql_query = [])) ∧
    execQueries tr' = execQueries tr ∧
    snapStates tr' = snapStates tr ++ [st'] := by
  by_cases hd : destructive st.sql_query = true
  · rw [check_sql_blocked O tr hd, Except.ok.injEq, Prod.mk.injEq] at h
    obtain ⟨h1, h2⟩ := h
    subst h2
    rw [← h1]
    refine ⟨rfl, rfl, rfl, rfl, rfl, rfl, Or.inr ⟨rfl, rfl⟩, ?_, ?_⟩
    · simp [execQueries_append, execQueries]
    · simp [snapStates_append, snapStates]
  · rw [Bool.not_eq_true] at hd
    unfold destructive at hd
    cases hr : O.llm (llmCount tr) [⟨Role.system, checkPrompt O.schema st.sql_query⟩] with
    | error e => simp [check_sql_node, hd, hr] at h
    | ok r =>
      by_cases hc : listInfix correctTag (upperStr (pyStrip r)) = true
      · simp only [check_sql_node, hd, Bool.or_self, Bool.false_eq_true, if_false, hr, hc,
          if_true, Except.ok.injEq, Prod.mk.injEq] at h
        obtain ⟨h1, h2⟩ := h
        subst h2
        rw [← h1]
        refine ⟨rfl, rfl, rfl, rfl, rfl, rfl, Or.inl rfl, ?_, ?_⟩
        · simp [execQueries_append, execQueries]
        · simp [snapStates_append, snapStates]
      · cases hx : extractFenced (pyStrip r) with
        | some inner =>
          simp only [check_sql_node, hd, Bool.or_self, Bool.false_eq_true, if_false, hr, hc,
            hx, Except.ok.injEq, Prod.mk.injEq] at h
          obtain ⟨h1, h2⟩ := h
          subst h2
          rw [← h1]
          refine ⟨rfl, rfl, rfl, rfl, rfl, rfl, Or.inl rfl, ?_, ?_⟩
          · simp [execQueries_append, execQueries]
          · simp [snapStates_append, snapStates]
        | none =>
          simp only [check_sql_node, hd, Bool.or_self, Bool.false_eq_true, if_false, hr, hc,
            hx, Except.ok.injEq, Prod.mk.injEq] at h
          obtain ⟨h1, h2⟩ := h
          subst h2
          rw [← h1]
          refine ⟨rfl, rfl, rfl, rfl, rfl, rfl, Or.inl rfl, ?_, ?_⟩
          · simp [execQueries_append, execQueries]
          · simp [snapStates_append, snapStates]

/-- Inversion for `execute_sql_node`. -/
theorem exec_inv {O : Oracles} {tr : Trace} {st : AgentState} :
    (execute_sql_node O tr st).1.question = st.question ∧
    (execute_sql_node O tr st).1.sanitized_question = st.sanitized_question ∧
    (execute_sql_node O tr st).1.pii_map = st.pii_map ∧
    (execute_sql_node O tr st).1.sql_query = st.sql_query ∧
    (execute_sql_node O tr st).1.final_answer = st.final_answer ∧
    (execute_sql_node O tr st).2 =
      tr ++ [.execCall (rehydrateStr st.pii_map st.sql_query)
               (match O.dbExec (execCount tr) (rehydrateStr st.pii_map st.sql_query) with
                | .ok _ => true
                | .error _ => false),
             .snap (execute_sql_node O tr st).1] := by
  cases hdbr : O.dbExec (execCount tr) (rehydrateStr st.pii_map st.sql_query) with
  | ok df =>
    rw [exec_ok_shape O tr st df hdbr]
    exact ⟨rfl, rfl, rfl, rfl, rfl, rfl⟩
  | error e =>
    rw [exec_fail_shape O tr st e hdbr]
    exact ⟨rfl, rfl, rfl, rfl, rfl, rfl⟩

/-- Inversion for `generate_answer_node`. -/
theorem answer_inv {O : Oracles} {tr : Trace} {st st' : AgentState} {tr' : Trace}
    (h : generate_answer_node O tr st = .ok (st', tr')) :
    st'.question = st.question ∧ st'.sanitized_question = st.sanitized_question ∧
    st'.pii_map = st.pii_map ∧ st'.error = st.error ∧
    execQueries tr' = execQueries tr ∧
    snapStates tr' = snapStates tr ++ [st'] := by
  by_cases he : errTruthy st.error = true
  · rw [answer_err_shape O tr st he, Except.ok.injEq, Prod.mk.injEq] at h
    obtain ⟨h1, h2⟩ := h
    subst h2
    rw [← h1]
    refine ⟨rfl, rfl, rfl, rfl, ?_, ?_⟩
    · simp [execQueries_append, execQueries]
    · simp [snapStates_append, snapStates]
  · rw [Bool.not_eq_true] at he
    cases hr : O.llm (llmCount tr)
        [⟨Role.human, answerPrompt st.sanitized_question st.sql_query st.query_result⟩] with
    | error e => simp [generate_answer_node, he, hr] at h
    | ok r =>
      simp only [generate_answer_node, he, Bool.false_eq_true, if_false, hr,
        Except.ok.injEq, Prod.mk.injEq] at h
      obtain ⟨h1, h2⟩ := h
      subst h2
      rw [← h1]
      refine ⟨rfl, rfl, rfl, rfl, ?_, ?_⟩
      · simp [execQueries_append, execQueries]
      · simp [snapStates_append, snapStates]

/-! ## Claim C8 (framing of question / sanitized question / map) -/

/-- Loop invariant for C8: along an ok-run every recorded state keeps
the original question, and carries exactly the tokenization of that
question in `sanitized_question` and `pii_map`. -/
theorem loop_framing (O : Oracles) (q : Str) :
    ∀ (fuel : Nat) (st : AgentState) (tr : Trace) (st' : AgentState) (tr' : Trace),
      st.question = q →
      (∀ s ∈ snapStates tr, s.question = q ∧
        s.sanitized_question = (pii_filter_input q).1 ∧
        s.pii_map = (pii_filter_input q).2) →
      pipelineLoop O fuel st tr = .ok (st', tr') →
      (st'.question = q ∧ st'.sanitized_question = (pii_filter_input q).1 ∧
        st'.pii_map = (pii_filter_input q).2) ∧
      (∀ s ∈ snapStates tr', s.question = q ∧
        s.sanitized_question = (pii_filter_input q).1 ∧
        s.pii_map = (pii_filter_input q).2) := by
  intro fuel
  induction fuel with
  | zero =>
    intro st tr st' tr' _ _ h
    simp [pipelineLoop] at h
  | succ fuel ih =>
    intro st tr st' tr' hq hinv h
    cases hgen : generate_sql_node O tr st with
    | error e => simp [pipelineLoop, hgen] at h
    | ok p₁ =>
      obtain ⟨st₁, tr₁⟩ := p₁
      obtain ⟨resp, hst₁, htr₁⟩ := gen_inv hgen
      have hP₁ : st₁.question = q ∧ st₁.sanitized_question = (pii_filter_input q).1 ∧
          st₁.pii_map = (pii_filter_input q).2 := by
        rw [hst₁]
        exact ⟨hq, by rw [hq], by rw [hq]⟩
      have hinv₁ : ∀ s ∈ snapStates tr₁, s.question = q ∧
          s.sanitized_question = (pii_filter_input q).1 ∧
          s.pii_map = (pii_filter_input q).2 := by
        intro s hs
        rw [htr₁, snapStates_append] at hs
        simp only [snapStates, List.filterMap_cons, List.filterMap_nil, List.mem_append,
          List.mem_singleton] at hs
        rcases hs with hs | hs
        · exact hinv s hs
        · rw [hs]; exact hP₁
      cases hchk : check_sql_node O tr₁ st₁ with
      | error e => simp [pipelineLoop, hgen, hchk] at h
      | ok p₂ =>
        obtain ⟨st₂, tr₂⟩ := p₂
        obtain ⟨hq₂, hsq₂, hpm₂, _, _, _, _, _, hsn₂⟩ := check_inv hchk
        have hP₂ : st₂.question = q ∧ st₂.sanitized_question = (pii_filter_input q).1 ∧
            st₂.pii_map = (pii_filter_input q).2 := by
          rw [hq₂, hsq₂, hpm₂]
          exact hP₁
        have hinv₂ : ∀ s ∈ snapStates tr₂, s.question = q ∧
            s.sanitized_question = (pii_filter_input q).1 ∧
            s.pii_map = (pii_filter_input q).2 := by
          intro s hs
          rw [hsn₂] at hs
          rcases List.mem_append.mp hs with hs | hs
          · exact hinv₁ s hs
          · rw [List.mem_singleton.mp hs]; exact hP₂
        obtain ⟨hqE, hsqE, hpmE, _, _, htrE⟩ :=
          @exec_inv O tr₂ st₂
        have hP₃ : (execute_sql_node O tr₂ st₂).1.question = q ∧
            (execute_sql_node O tr₂ st₂).1.sanitized_question = (pii_filter_input q).1 ∧
            (execute_sql_node O tr₂ st₂).1.pii_map = (pii_filter_input q).2 := by
          rw [hqE, hsqE, hpmE]
          exact hP₂
        have hinv₃ : ∀ s ∈ snapStates (execute_sql_node O tr₂ st₂).2, s.question = q ∧
            s.sanitized_question = (pii_filter_input q).1 ∧
            s.pii_map = (pii_filter_input q).2 := by
          intro s hs
          rw [htrE, snapStates_append] at hs
          simp only [snapStates, List.filterMap_cons, List.filterMap_nil, List.mem_append,
            List.mem_singleton] at hs
          rcases hs with hs | hs
          · exact hinv₂ s hs
          · rw [hs]; exact hP₃
        simp only [pipelineLoop, hgen, hchk] at h
        by_cases hret : should_retry (execute_sql_node O tr₂ st₂).1 = true
        · rw [if_pos hret] at h
          exact ih (execute_sql_node O tr₂ st₂).1 (execute_sql_node O tr₂ st₂).2 st' tr'
            hP₃.1 hinv₃ h
        · rw [if_neg hret] at h
          obtain ⟨hqA, hsqA, hpmA, _, _, hsnA⟩ := answer_inv h
          have hP' : st'.question = q ∧ st'.sanitized_question = (pii_filter_input q).1 ∧
              st'.pii_map = (pii_filter_input q).2 := by
            rw [hqA, hsqA, hpmA]
            exact hP₃
          refine ⟨hP', ?_⟩
          intro s hs
          rw [hsnA] at hs
          rcases List.mem_append.mp hs with hs | hs
          · exact hinv₃ s hs
          · rw [List.mem_singleton.mp hs]; exact hP'

/-- C8: throughout a pipeline run the `question` field never changes
from the original user text, and `sanitized_question` and `pii_map`
hold exactly the tokenization of that question in every recorded
state — across every retry iteration — and in the final state; in
particular the executor and the answer composer never mutate the
placeholder map. -/
theorem C8_state_framing (O : Oracles) (q : Str) (fuel : Nat)
    (st : AgentState) (tr : Trace)
    (h : runPipeline O fuel q = .ok (st, tr)) :
    (st.question = q ∧ st.sanitized_question = (pii_filter_input q).1 ∧
      st.pii_map = (pii_filter_input q).2) ∧
    (∀ s ∈ snapStates tr, s.question = q ∧
      s.sanitized_question = (pii_filter_input q).1 ∧
      s.pii_map = (pii_filter_input q).2) :=
  loop_framing O q fuel (initState q) [] st tr rfl (by simp [snapStates]) h

/-- C8 witness: a concrete healthy run on a question containing an
email address. -/
theorem C8_state_framing_witness :
    ∃ st tr, runPipeline oSuccess 12 ("mail a@b.c").data = .ok (st, tr) ∧
      ((st.question = ("mail a@b.c").data ∧
        st.sanitized_question = (pii_filter_input ("mail a@b.c").data).1 ∧
        st.pii_map = (pii_filter_input ("mail a@b.c").data).2) ∧
      (∀ s ∈ snapStates tr, s.question = ("mail a@b.c").data ∧
        s.sanitized_question = (pii_filter_input ("mail a@b.c").data).1 ∧
        s.pii_map = (pii_filter_input ("mail a@b.c").data).2)) := by
  refine ⟨(runPipeline oSuccess 12 ("mail a@b.c").data).toOption.get (by decide) |>.1,
    (runPipeline oSuccess 12 ("mail a@b.c").data).toOption.get (by decide) |>.2, ?_, ?_⟩
  · rfl
  · exact C8_state_framing oSuccess ("mail a@b.c").data 12 _ _ (by rfl)

/-! ## Claim C9 (successful execution implies no error) -/

theorem execOkInv_append {t₁ t₂ : Trace} (h₁ : ExecOkInv t₁) (h₂ : ExecOkInv t₂) :
    ExecOkInv (t₁ ++ t₂) := by
  intro a s b heq
  rcases List.append_eq_append_iff.mp heq.symm with ⟨a', htr, hcb⟩ | ⟨c', _, ht₂⟩
  · cases a' with
    | nil =>
      simp only [List.append_nil] at htr
      simp only [List.nil_append] at hcb
      exact h₂ [] s b hcb.symm
    | cons ev c'' =>
      rw [List.cons_append, List.cons.injEq] at hcb
      obtain ⟨hev, hb⟩ := hcb
      obtain ⟨st₃, b', hc', herr, hret⟩ := h₁ a s c'' (by rw [htr, ← hev])
      exact ⟨st₃, b' ++ t₂, by rw [hb, hc']; simp, herr, hret⟩
  · exact h₂ c' s b ht₂

theorem execOkInv_of_no_exec {Δ : Trace} (h : ∀ s, Event.execCall s true ∉ Δ) :
    ExecOkInv Δ := by
  intro a s b heq
  exact absurd (heq ▸ List.mem_append_right a (List.mem_cons_self _ _)) (h s)

theorem execOkInv_pair (x : Event) (st₃ : AgentState)
    (hx : ∀ s, x = .execCall s true → st₃.error = none ∧ should_retry st₃ = false) :
    ExecOkInv [x, .snap st₃] := by
  intro a s b heq
  cases a with
  | nil =>
    simp only [List.nil_append, List.cons.injEq] at heq
    obtain ⟨h1, h2⟩ := heq
    obtain ⟨herr, hret⟩ := hx s h1
    exact ⟨st₃, [], by rw [← h2], herr, hret⟩
  | cons a1 a' =>
    cases a' with
    | nil => simp at heq
    | cons a2 a'' => simp at heq

/-- The events added by `check_sql_node` contain no execution event. -/
theorem check_delta {O : Oracles} {tr : Trace} {st st' : AgentState} {tr' : Trace}
    (h : check_sql_node O tr st = .ok (st', tr')) :
    ∃ Δ, tr' = tr ++ Δ ∧ ∀ s, Event.execCall s true ∉ Δ := by
  by_cases hd : destructive st.sql_query = true
  · rw [check_sql_blocked O tr hd, Except.ok.injEq, Prod.mk.injEq] at h
    exact ⟨_, h.2.symm, by intro s hs; simp at hs⟩
  · rw [Bool.not_eq_true] at hd
    unfold destructive at hd
    cases hr : O.llm (llmCount tr) [⟨Role.system, checkPrompt O.schema st.sql_query⟩] with
    | error e => simp [check_sql_node, hd, hr] at h
    | ok r =>
      by_cases hc : listInfix correctTag (upperStr (pyStrip r)) = true
      · simp only [check_sql_node, hd, Bool.or_self, Bool.false_eq_true, if_false, hr, hc,
          if_true, Except.ok.injEq, Prod.mk.injEq] at h
        exact ⟨_, h.2.symm, by intro s hs; simp at hs⟩
      · cases hx : extractFenced (pyStrip r) with
        | some inner =>
          simp only [check_sql_node, hd, Bool.or_self, Bool.false_eq_true, if_false, hr, hc,
            hx, Except.ok.injEq, Prod.mk.injEq] at h
          exact ⟨_, h.2.symm, by intro s hs; simp at hs⟩
        | none =>
          simp only [check_sql_node, hd, Bool.or_self, Bool.false_eq_true, if_false, hr, hc,
            hx, Except.ok.injEq, Prod.mk.injEq] at h
          exact ⟨_, h.2.symm, by intro s hs; simp at hs⟩

/-- The events added by `generate_answer_node` contain no execution
event. -/
theorem answer_delta {O : Oracles} {tr : Trace} {st st' : AgentState} {tr' : Trace}
    (h : generate_answer_node O tr st = .ok (st', tr')) :
    ∃ Δ, tr' = tr ++ Δ ∧ ∀ s, Event.execCall s true ∉ Δ := by
  by_cases he : errTruthy st.error = true
  · rw [answer_err_shape O tr st he, Except.ok.injEq, Prod.mk.injEq] at h
    exact ⟨_, h.2.symm, by intro s hs; simp at hs⟩
  · rw [Bool.not_eq_true] at he
    cases hr : O.llm (llmCount tr)
        [⟨Role.human, answerPrompt st.sanitized_question st.sql_query st.query_result⟩] with
    | error e => simp [generate_answer_node, he, hr] at h
    | ok r =>
      simp only [generate_answer_node, he, Bool.false_eq_true, if_false, hr,
        Except.ok.injEq, Prod.mk.injEq] at h
      exact ⟨_, h.2.symm, by intro s hs; simp at hs⟩

/-- Loop invariant for C9. -/
theorem loop_execOkInv (O : Oracles)
    (hdb0 : ∀ n df, O.dbExec n [] ≠ .ok df) :
    ∀ (fuel : Nat) (st : AgentState) (tr : Trace) (st' : AgentState) (tr' : Trace),
      ExecOkInv tr →
      pipelineLoop O fuel st tr = .ok (st', tr') → ExecOkInv tr' := by
  intro fuel
  induction fuel with
  | zero =>
    intro st tr st' tr' _ h
    simp [pipelineLoop] at h
  | succ fuel ih =>
    intro st tr st' tr' hinv h
    cases hgen : generate_sql_node O tr st with
    | error e => simp [pipelineLoop, hgen] at h
    | ok p₁ =>
      obtain ⟨st₁, tr₁⟩ := p₁
      obtain ⟨resp, hst₁, htr₁⟩ := gen_inv hgen
      have hinv₁ : ExecOkInv tr₁ := by
        rw [htr₁]
        exact execOkInv_append hinv (execOkInv_of_no_exec (by intro s hs; simp at hs))
      cases hchk : check_sql_node O tr₁ st₁ with
      | error e => simp [pipelineLoop, hgen, hchk] at h
      | ok p₂ =>
        obtain ⟨st₂, tr₂⟩ := p₂
        obtain ⟨Δ, hΔeq, hΔno⟩ := check_delta hchk
        have hinv₂ : ExecOkInv tr₂ := by
          rw [hΔeq]
          exact execOkInv_append hinv₁ (execOkInv_of_no_exec hΔno)
        obtain ⟨_, _, _, _, _, _, herr₂, _, _⟩ := check_inv hchk
        simp only [pipelineLoop, hgen, hchk] at h
        cases hdbr : O.dbExec (execCount tr₂) (rehydrateStr st₂.pii_map st₂.sql_query) with
        | ok df =>
          have herr₂' : st₂.error = none := by
            rcases herr₂ with hh | ⟨he, hsql⟩
            · exact hh
            · exfalso
              rw [hsql, rehydrate_nil] at hdbr
              exact hdb0 _ df hdbr
          have hex := exec_ok_shape O tr₂ st₂ df hdbr
          rw [hex] at h
          have hret : should_retry { st₂ with
              query_result := redact_result_data (O.render df) st₂.pii_map
              chart_data := if !df.empty && decide (2 ≤ df.cols.length) then
                  some ⟨df.colValues 0, df.colValues 1, df.cols⟩
                else none } = false := by
            simp [should_retry, errTruthy, herr₂']
          rw [hret] at h
          simp only [Bool.false_eq_true, if_false] at h
          have hinv₃ : ExecOkInv (tr₂ ++
              [.execCall (rehydrateStr st₂.pii_map st₂.sql_query) true,
               .snap { st₂ with
                 query_result := redact_result_data (O.render df) st₂.pii_map
                 chart_data := if !df.empty && decide (2 ≤ df.cols.length) then
                     some ⟨df.colValues 0, df.colValues 1, df.cols⟩
                   else none }]) := by
            refine execOkInv_append hinv₂ (execOkInv_pair _ _ ?_)
            intro s hs
            exact ⟨herr₂', by simp [should_retry, errTruthy, herr₂']⟩
          obtain ⟨Δ', hΔ'eq, hΔ'no⟩ := answer_delta h
          rw [hΔ'eq]
          exact execOkInv_append hinv₃ (execOkInv_of_no_exec hΔ'no)
        | error e =>
          have hex := exec_fail_shape O tr₂ st₂ e hdbr
          rw [hex] at h
          have hinv₃ : ExecOkInv (tr₂ ++
              [.execCall (rehydrateStr st₂.pii_map st₂.sql_query) false,
               .snap { st₂ with error := some e, retry_count := st₂.retry_count + 1 }]) := by
            refine execOkInv_append hinv₂ (execOkInv_pair _ _ ?_)
            intro s hs
            simp at hs
          by_cases hret : should_retry
              { st₂ with error := some e, retry_count := st₂.retry_count + 1 } = true
          · rw [hret] at h
            simp only [if_true] at h
            exact ih _ _ st' tr' hinv₃ h
          · rw [Bool.not_eq_true] at hret
            rw [hret] at h
            simp only [Bool.false_eq_true, if_false] at h
            obtain ⟨Δ', hΔ'eq, hΔ'no⟩ := answer_delta h
            rw [hΔ'eq]
            exact execOkInv_append hinv₃ (execOkInv_of_no_exec hΔ'no)

/-- C9: in every run (over a store that rejects the empty query),
whenever the execution step succeeds, the state recorded immediately
after it has `error = none` and routes to answer composition, never
back to retry — every non-blocked validator path clears the error and
the blocked path's empty query cannot execute successfully. -/
theorem C9_exec_success_no_error (O : Oracles) (q : Str) (fuel : Nat)
    (st : AgentState) (tr : Trace)
    (hdb0 : ∀ n df, O.dbExec n [] ≠ .ok df)
    (h : runPipeline O fuel q = .ok (st, tr)) :
    ExecOkInv tr :=
  loop_execOkInv O hdb0 fuel (initState q) [] st tr
    (by intro a s b heq; simp at heq) h

/-- C9 witness: the healthy-run oracle, whose trace does contain a
successful execution event. -/
theorem C9_exec_success_no_error_witness :
    ExecOkInv ((runPipeline oSuccess 12 ("hi").data).toOption.get (by decide)).2 :=
  C9_exec_success_no_error oSuccess ("hi").data 12 _ _
    (fun n df h => by simp [oSuccess] at h) (by rfl)

/-! ## Claim C3 (destructive keyword gate) -/

/-- C3 amended: a query whose uppercased text contains `DROP` or
`DELETE` is rejected by the validator immediately — the query is
emptied, the error is set, and no model call is made — and the query
the executor then passes to the store for that attempt is the empty
string, which contains no destructive keyword.  (The validator's
model-repair output, however, is not re-checked: see the
counterexample, where a repaired `DROP` statement reaches the
store.) -/
theorem C3_destructive_block_amended (O : Oracles) (tr : Trace) (st : AgentState)
    (h : destructive st.sql_query = true) :
    check_sql_node O tr st =
      .ok ({ st with error := some unsafeQueryMsg, sql_query := [] },
        tr ++ [.snap { st with error := some unsafeQueryMsg, sql_query := [] }]) ∧
    rehydrateStr ({ st with error := some unsafeQueryMsg, sql_query := [] } : AgentState).pii_map
        ({ st with error := some unsafeQueryMsg, sql_query := [] } : AgentState).sql_query = [] ∧
    destructive [] = false ∧
    llmMessages (tr ++ [.snap { st with error := some unsafeQueryMsg, sql_query := [] }]) =
      llmMessages tr := by
  refine ⟨check_sql_blocked O tr h, rehydrate_nil _, by decide, ?_⟩
  simp [llmMessages_append, llmMessages]

/-- C3 witness: the destructive statement `DROP TABLE users`. -/
theorem C3_destructive_block_amended_witness :
    check_sql_node oAlwaysFail []
        { initState [] with sql_query := ("DROP TABLE users").data } =
      .ok ({ { initState [] with sql_query := ("DROP TABLE users").data } with
              error := some unsafeQueryMsg, sql_query := [] },
        [] ++ [.snap { { initState [] with sql_query := ("DROP TABLE users").data } with
              error := some unsafeQueryMsg, sql_query := [] }]) ∧
    rehydrateStr ({ { initState [] with sql_query := ("DROP TABLE users").data } with
        error := some unsafeQueryMsg, sql_query := [] } : AgentState).pii_map
        ({ { initState [] with sql_query := ("DROP TABLE users").data } with
        error := some unsafeQueryMsg, sql_query := [] } : AgentState).sql_query = [] ∧
    destructive [] = false ∧
    llmMessages ([] ++ [.snap { { initState [] with sql_query := ("DROP TABLE users").data } with
        error := some unsafeQueryMsg, sql_query := [] }]) = llmMessages [] :=
  C3_destructive_block_amended oAlwaysFail []
    { initState [] with sql_query := ("DROP TABLE users").data } (by decide)

/-! ## Claim C4 (tokenization map structure) -/

theorem natToDec_ne_nil (n : Nat) : natToDec n ≠ [] := by
  by_cases h : n < 10
  · rw [natToDec_lt n h]
    simp
  · rw [natToDec_ge n h]
    simp

theorem natToDec_inj : ∀ m n, natToDec m = natToDec n → m = n := by
  intro m
  induction m using Nat.strong_induction_on with
  | _ m ih =>
    intro n h
    by_cases hm : m < 10 <;> by_cases hn : n < 10
    · rw [natToDec_lt m hm, natToDec_lt n hn, List.cons.injEq] at h
      exact (by decide : ∀ a, a < 10 → ∀ b, b < 10 → Nat.digitChar a = Nat.digitChar b → a = b)
        m hm n hn h.1
    · exfalso
      rw [natToDec_lt m hm, natToDec_ge n hn] at h
      have := congrArg List.length h
      simp only [List.length_cons, List.length_nil, List.length_append] at this
      have h0 : natToDec (n / 10) ≠ [] := natToDec_ne_nil _
      cases hx : natToDec (n / 10) with
      | nil => exact h0 hx
      | cons c cs => rw [hx] at this; simp at this
    · exfalso
      rw [natToDec_ge m hm, natToDec_lt n hn] at h
      have := congrArg List.length h
      simp only [List.length_cons, List.length_nil, List.length_append] at this
      have h0 : natToDec (m / 10) ≠ [] := natToDec_ne_nil _
      cases hx : natToDec (m / 10) with
      | nil => exact h0 hx
      | cons c cs => rw [hx] at this; simp at this
    · rw [natToDec_ge m hm, natToDec_ge n hn] at h
      obtain ⟨h1, h2⟩ := List.append_inj' h (by simp)
      have hd : m / 10 = n / 10 :=
        ih (m / 10) (Nat.div_lt_self (by omega) (by omega)) (n / 10) h1
      have hm10 : m % 10 = n % 10 := by
        rw [List.cons.injEq] at h2
        exact (by decide : ∀ a, a < 10 → ∀ b, b < 10 →
            Nat.digitChar a = Nat.digitChar b → a = b)
          (m % 10) (Nat.mod_lt _ (by omega)) (n % 10) (Nat.mod_lt _ (by omega)) h2.1
      omega

theorem placeholder_inj {m n : Nat} (h : placeholder m = placeholder n) : m = n := by
  unfold placeholder at h
  have h1 := List.append_cancel_right h
  exact natToDec_inj m n (List.append_cancel_left h1)

/-- The fold of `pii_filter_input` appends one fresh entry per match. -/
theorem pii_fold_map :
    ∀ (l : List (Nat × Str)) (s : Str) (m : List (Str × Str)),
      (∀ p ∈ l, ∀ kv ∈ m, kv.1 ≠ placeholder (p.1 + 1)) →
      (l.map Prod.fst).Nodup →
      (l.foldl piiFilterStep (s, m)).2 =
        m ++ l.map (fun p => (placeholder (p.1 + 1), p.2)) := by
  intro l
  induction l with
  | nil => intro s m _ _; simp
  | cons p l ih =>
    intro s m hfresh hnd
    have hany : (m.any (fun kv => kv.1 == placeholder (p.1 + 1))) = false := by
      rw [List.any_eq_false]
      intro kv hkv
      simp only [beq_iff_eq]
      exact hfresh p (List.mem_cons_self _ _) kv hkv
    have hstep : piiFilterStep (s, m) p =
        (replaceAll p.2 (placeholder (p.1 + 1)) s, m ++ [(placeholder (p.1 + 1), p.2)]) := by
      simp [piiFilterStep, dictSet, hany]
    rw [List.foldl_cons, hstep, ih]
    · simp
    · intro p' hp' kv hkv
      rcases List.mem_append.mp hkv with hkv | hkv
      · exact hfresh p' (List.mem_cons_of_mem _ hp') kv hkv
      · rw [List.mem_singleton.mp hkv]
        intro hc
        have : p.1 = p'.1 := by
          have := placeholder_inj hc
          omega
        rw [List.map_cons, List.nodup_cons] at hnd
        exact hnd.1 (this ▸ List.mem_map_of_mem Prod.fst hp')
    · rw [List.map_cons, List.nodup_cons] at hnd
      exact hnd.2

/-- C4 amended: for any input text, `tokenize` produces exactly one
map entry per regex match occurrence (not per distinct value),
assigning the placeholders `__EMAIL_1__ … __EMAIL_k__` in
left-to-right match order; the keys are pairwise distinct, the values
are exactly the matches in order, and a text with no matches returns
the original text unchanged with an empty map.  (The sanitized text
may still contain email-shaped substrings: see the counterexample.) -/
theorem C4_tokenize_amended (text : Str) :
    (pii_filter_input text).2 =
      (findallEmails text).enum.map (fun p => (placeholder (p.1 + 1), p.2)) ∧
    (pii_filter_input text).2.length = (findallEmails text).length ∧
    ((pii_filter_input text).2.map Prod.fst).Nodup ∧
    mapValues (pii_filter_input text).2 = findallEmails text ∧
    (findallEmails text = [] → pii_filter_input text = (text, [])) := by
  have hmap : (pii_filter_input text).2 =
      (findallEmails text).enum.map (fun p => (placeholder (p.1 + 1), p.2)) := by
    unfold pii_filter_input
    rw [pii_fold_map]
    · simp
    · intro p _ kv hkv
      simp at hkv
    · rw [List.enum_map_fst]
      exact List.nodup_range _
  refine ⟨hmap, ?_, ?_, ?_, ?_⟩
  · rw [hmap]
    simp [List.enum_length]
  · rw [hmap, List.map_map]
    have h1 : (Prod.fst ∘ fun p : Nat × Str => (placeholder (p.1 + 1), p.2)) =
        ((fun i => placeholder (i + 1)) ∘ Prod.fst) := by
      funext p
      rfl
    rw [h1, ← List.map_map, List.enum_map_fst]
    exact (List.nodup_range _).map (fun a b hab => by
      have := placeholder_inj hab
      omega)
  · rw [hmap]
    unfold mapValues
    rw [List.map_map]
    have h1 : (Prod.snd ∘ fun p : Nat × Str => (placeholder (p.1 + 1), p.2)) =
        (Prod.snd : Nat × Str → Str) := by
      funext p
      rfl
    rw [h1, List.enum_map_snd]
  · intro h
    simp [pii_filter_input, h]

/-- C4 witness: the amended statement at a concrete text. -/
theorem C4_tokenize_amended_witness :
    (pii_filter_input ("Count the total number of sales.").data).2 =
      (findallEmails ("Count the total number of sales.").data).enum.map
        (fun p => (placeholder (p.1 + 1), p.2)) ∧
    (pii_filter_input ("Count the total number of sales.").data).2.length =
      (findallEmails ("Count the total number of sales.").data).length ∧
    ((pii_filter_input ("Count the total number of sales.").data).2.map Prod.fst).Nodup ∧
    mapValues (pii_filter_input ("Count the total number of sales.").data).2 =
      findallEmails ("Count the total number of sales.").data ∧
    (findallEmails ("Count the total number of sales.").data = [] →
      pii_filter_input ("Count the total number of sales.").data =
        (("Count the total number of sales.").data, [])) :=
  C4_tokenize_amended ("Count the total number of sales.").data

/-! ## Matcher structure lemmas -/

/-- A successful match decomposes the input and consumes at least one
character. -/
theorem emailMatchAt_split {l m r : Str} (h : emailMatchAt l = some (m, r)) :
    l = m ++ r ∧ m ≠ [] := by
  unfold emailMatchAt at h
  by_cases hloc : (l.takeWhile isAChar).isEmpty = true
  · simp [hloc] at h
  · simp only [hloc, Bool.false_eq_true, if_false] at h
    cases hdw : l.dropWhile isAChar with
    | nil => rw [hdw] at h; simp at h
    | cons c r2 =>
      rw [hdw] at h
      simp only [] at h
      by_cases hc : c = '@'
      · subst hc
        rw [if_pos rfl] at h
        cases hds : domSplit (r2.takeWhile isAChar) with
        | none => rw [hds] at h; simp at h
        | some j =>
          rw [hds] at h
          simp only [Option.some.injEq, Prod.mk.injEq] at h
          obtain ⟨hm, hr⟩ := h
          have hj : validSplitB (r2.takeWhile isAChar) j = true :=
            List.find?_some hds
          have hjlt : j < (r2.takeWhile isAChar).length := by
            have := List.mem_of_find?_eq_some hds
            rw [List.mem_reverse] at this
            exact List.mem_range.mp this
          have hdot : (r2.takeWhile isAChar).drop j =
              '.' :: (r2.takeWhile isAChar).drop (j + 1) := by
            have hget : (r2.takeWhile isAChar).getD j ' ' = '.' := by
              simp only [validSplitB, Bool.and_eq_true, beq_iff_eq] at hj
              exact hj.1.2
            rw [List.getD_eq_getElem _ _ hjlt] at hget
            rw [List.drop_eq_getElem_cons hjlt, hget]
          have hl : l = l.takeWhile isAChar ++ '@' :: r2 := by
            rw [← hdw, List.takeWhile_append_dropWhile]
          have hr2 : r2 = r2.takeWhile isAChar ++ r2.dropWhile isAChar :=
            (List.takeWhile_append_dropWhile isAChar r2).symm
          have hdom : r2.takeWhile isAChar =
              (r2.takeWhile isAChar).take j ++ '.' ::
                (((r2.takeWhile isAChar).drop (j + 1)).takeWhile isWordChar ++
                 ((r2.takeWhile isAChar).drop (j + 1)).dropWhile isWordChar) := by
            conv_lhs => rw [← List.take_append_drop j (r2.takeWhile isAChar)]
            rw [hdot, List.takeWhile_append_dropWhile]
          constructor
          · rw [← hm, ← hr]
            conv_lhs => rw [hl]
            conv_lhs => rw [hr2]
            conv_lhs => rw [hdom]
            simp only [List.append_assoc, List.cons_append]
          · rw [← hm]
            intro hx
            rw [List.append_eq_nil] at hx
            rw [List.isEmpty_iff] at hloc
            exact hloc hx.1
      · rw [if_neg hc] at h
        simp at h

theorem head_dropWhile_false (p : Char → Bool) :
    ∀ (l : Str) (c : Char), (l.dropWhile p).head? = some c → p c = false := by
  intro l
  induction l with
  | nil => intro c h; simp at h
  | cons a t ih =>
    intro c h
    by_cases hp : p a = true
    · rw [List.dropWhile_cons_of_pos hp] at h
      exact ih c h
    · rw [Bool.not_eq_true] at hp
      rw [List.dropWhile_cons_of_neg (by rw [hp]; simp)] at h
      simp only [List.head?_cons, Option.some.injEq] at h
      rw [← h]
      exact hp

theorem isWordChar_isAChar {c : Char} (h : isWordChar c = true) : isAChar c = true := by
  simp [isAChar, h]

/-- A match consists of email characters, contains `@`, and the
remainder starts with a non-word character (if any). -/
theorem emailMatchAt_chars {l m r : Str} (h : emailMatchAt l = some (m, r)) :
    ('@' ∈ m) ∧ (∀ c ∈ m, isEmailChar c = true) ∧
    (∀ c, r.head? = some c → isWordChar c = false) := by
  unfold emailMatchAt at h
  by_cases hloc : (l.takeWhile isAChar).isEmpty = true
  · simp [hloc] at h
  · simp only [hloc, Bool.false_eq_true, if_false] at h
    cases hdw : l.dropWhile isAChar with
    | nil => rw [hdw] at h; simp at h
    | cons c r2 =>
      rw [hdw] at h
      simp only [] at h
      by_cases hc : c = '@'
      · subst hc
        rw [if_pos rfl] at h
        cases hds : domSplit (r2.takeWhile isAChar) with
        | none => rw [hds] at h; simp at h
        | some j =>
          rw [hds] at h
          simp only [Option.some.injEq, Prod.mk.injEq] at h
          obtain ⟨hm, hr⟩ := h
          refine ⟨?_, ?_, ?_⟩
          · rw [← hm]
            exact List.mem_append_right _ (List.mem_cons_self _ _)
          · intro x hx
            rw [← hm] at hx
            rcases List.mem_append.mp hx with hx | hx
            · have := List.mem_takeWhile_imp hx
              simp [isEmailChar, this]
            · rcases List.mem_cons.mp hx with hx | hx
              · rw [hx]; decide
              · rcases List.mem_append.mp hx with hx | hx
                · have := List.mem_takeWhile_imp (List.take_subset _ _ hx)
                  simp [isEmailChar, this]
                · rcases List.mem_cons.mp hx with hx | hx
                  · rw [hx]; decide
                  · have := List.mem_takeWhile_imp hx
                    simp [isEmailChar, isWordChar_isAChar this]
          · intro x hx
            rw [← hr] at hx
            cases hw : (((r2.takeWhile isAChar).drop (j + 1)).dropWhile isWordChar) with
            | nil =>
              rw [hw, List.nil_append] at hx
              have hA := head_dropWhile_false isAChar r2 x hx
              cases hWx : isWordChar x with
              | false => rfl
              | true => rw [isWordChar_isAChar hWx] at hA; cases hA
            | cons y t =>
              rw [hw] at hx
              simp only [List.cons_append, List.head?_cons, Option.some.injEq] at hx
              have := head_dropWhile_false isWordChar ((r2.takeWhile isAChar).drop (j + 1)) y
              rw [hw] at this
              rw [← hx]
              exact this rfl
      · rw [if_neg hc] at h
        simp at h

/-- Prepending a further `[\w\.-]` character to a matching suffix
still matches. -/
theorem emailMatchAt_cons_A {c : Char} {l : Str} (hc : isAChar c = true)
    (h : (emailMatchAt l).isSome) : (emailMatchAt (c :: l)).isSome := by
  unfold emailMatchAt at h ⊢
  rw [List.takeWhile_cons_of_pos hc, List.dropWhile_cons_of_pos hc]
  by_cases hloc : (l.takeWhile isAChar).isEmpty = true
  · simp [hloc] at h
  · simp only [hloc, Bool.false_eq_true, if_false] at h
    simp only [List.isEmpty_cons, Bool.false_eq_true, if_false]
    cases hdw : l.dropWhile isAChar with
    | nil => rw [hdw] at h; simp at h
    | cons c' r2 =>
      rw [hdw] at h
      simp only [] at h ⊢
      by_cases hc' : c' = '@'
      · subst hc'
        rw [if_pos rfl] at h ⊢
        cases hds : domSplit (r2.takeWhile isAChar) with
        | none => rw [hds] at h; simp at h
        | some j => simp
      · rw [if_neg hc'] at h
        simp at h

/-! ## Occurrence counting and unique-occurrence replacement -/

theorem occursAt_lt {pat s : Str} {i : Nat} (hp : pat ≠ []) (h : occursAt pat s i) :
    i < s.length := by
  by_contra hge
  push_neg at hge
  have hd : s.drop i = [] := List.drop_eq_nil_of_le hge
  rw [occursAt, hd] at h
  exact hp (List.prefix_nil.mp h)

theorem countOccur_one {pat s : Str} (hp : pat ≠ []) (h : countOccur pat s = 1) :
    ∃ i, occursAt pat s i ∧ ∀ j, occursAt pat s j → j = i := by
  unfold countOccur at h
  obtain ⟨a, ha⟩ := List.length_eq_one.mp h
  have hmem : a ∈ (List.range (s.length + 1)).filter
      (fun i => pat.isPrefixOf (s.drop i)) := by
    rw [ha]; exact List.mem_singleton_self a
  have hocc : occursAt pat s a :=
    List.isPrefixOf_iff_prefix.mp (List.mem_filter.mp hmem).2
  refine ⟨a, hocc, ?_⟩
  intro j hj
  have hjlt : j < s.length + 1 := Nat.lt_succ_of_lt (occursAt_lt hp hj)
  have hjm : j ∈ (List.range (s.length + 1)).filter
      (fun i => pat.isPrefixOf (s.drop i)) :=
    List.mem_filter.mpr ⟨List.mem_range.mpr hjlt, List.isPrefixOf_iff_prefix.mpr hj⟩
  rw [ha] at hjm
  exact List.mem_singleton.mp hjm

theorem occursAt_decomp {pat s : Str} {i : Nat} (hp : pat ≠ []) (h : occursAt pat s i) :
    ∃ A B, s = A ++ pat ++ B ∧ A.length = i := by
  have hlt := occursAt_lt hp h
  obtain ⟨B, hB⟩ := h
  refine ⟨s.take i, B, ?_, ?_⟩
  · conv_lhs => rw [← List.take_append_drop i s]
    rw [← hB, ← List.append_assoc]
  · rw [List.length_take]
    exact Nat.min_eq_left (Nat.le_of_lt hlt)

theorem occursAt_append_left (pat A B : Str) :
    occursAt pat (A ++ pat ++ B) A.length := by
  rw [occursAt, List.append_assoc, List.drop_left]
  exact List.prefix_append pat B

theorem replaceAll_of_no_occur {pat rep : Str} :
    ∀ s, (∀ i, ¬ occursAt pat s i) → replaceAll pat rep s = s := by
  intro s
  induction s with
  | nil => intro _; rfl
  | cons c rest ih =>
    intro h
    have hcond : (!pat.isEmpty && pat.isPrefixOf (c :: rest)) = false := by
      cases hc : (!pat.isEmpty && pat.isPrefixOf (c :: rest)) with
      | false => rfl
      | true =>
        exfalso
        apply h 0
        simp only [Bool.and_eq_true] at hc
        rw [occursAt, List.drop_zero]
        exact List.isPrefixOf_iff_prefix.mp hc.2
    rw [replaceAll_cons_neg rep hcond]
    congr 1
    apply ih
    intro i hi
    apply h (i + 1)
    exact hi

theorem replaceAll_unique {pat rep : Str} (hp : pat ≠ []) :
    ∀ A B, (∀ i, occursAt pat (A ++ pat ++ B) i → i = A.length) →
      replaceAll pat rep (A ++ pat ++ B) = A ++ rep ++ B := by
  intro A
  induction A with
  | nil =>
    intro B h
    obtain ⟨pc, pr, hpat⟩ : ∃ pc pr, pat = pc :: pr := by
      cases pat with
      | nil => exact absurd rfl hp
      | cons pc pr => exact ⟨pc, pr, rfl⟩
    have hne : pat.isEmpty = false := by rw [hpat]; rfl
    have hpb : pat ++ B = pc :: (pr ++ B) := by rw [hpat]; rfl
    have hcondT : (!pat.isEmpty && pat.isPrefixOf (pc :: (pr ++ B))) = true := by
      rw [hne, ← hpb]
      simp only [Bool.not_false, Bool.true_and]
      exact List.isPrefixOf_iff_prefix.mpr (List.prefix_append _ _)
    have hnoB : ∀ i, ¬ occursAt pat B i := by
      intro i hi
      have hocc : occursAt pat ([] ++ pat ++ B) (pat.length + i) := by
        show pat <+: (([] : Str) ++ pat ++ B).drop (pat.length + i)
        rw [List.nil_append, ← List.drop_drop, List.drop_left]
        exact hi
      have hz := h _ hocc
      simp only [List.length_nil] at hz
      have hp0 : pat.length = 0 := by omega
      exact hp (List.length_eq_zero.mp hp0)
    calc replaceAll pat rep ([] ++ pat ++ B)
        = replaceAll pat rep (pc :: (pr ++ B)) := by rw [List.nil_append, hpb]
      _ = rep ++ replaceAll pat rep ((pc :: (pr ++ B)).drop pat.length) :=
          replaceAll_cons_pos rep hcondT
      _ = rep ++ replaceAll pat rep B := by rw [← hpb, List.drop_left]
      _ = rep ++ B := by rw [replaceAll_of_no_occur B hnoB]
      _ = [] ++ rep ++ B := by simp
  | cons a A ih =>
    intro B h
    have hcons : (a :: A) ++ pat ++ B = a :: (A ++ pat ++ B) := by simp
    have hcond : (!pat.isEmpty && pat.isPrefixOf (a :: (A ++ pat ++ B))) = false := by
      cases hc : (!pat.isEmpty && pat.isPrefixOf (a :: (A ++ pat ++ B))) with
      | false => rfl
      | true =>
        exfalso
        simp only [Bool.and_eq_true] at hc
        have hocc : occursAt pat ((a :: A) ++ pat ++ B) 0 := by
          rw [occursAt, List.drop_zero, hcons]
          exact List.isPrefixOf_iff_prefix.mp hc.2
        have h0 := h 0 hocc
        simp at h0
    have hrec : ∀ i, occursAt pat (A ++ pat ++ B) i → i = A.length := by
      intro i hi
      have hocc : occursAt pat ((a :: A) ++ pat ++ B) (i + 1) := by
        rw [occursAt, hcons]
        exact hi
      have hsucc := h (i + 1) hocc
      simp only [List.length_cons] at hsucc
      omega
    rw [hcons, replaceAll_cons_neg rep hcond, ih B hrec]
    simp

/-! ## Unfolding the `re.findall` scan -/

theorem findallAux_succ (fuel : Nat) (c : Char) (rest : Str) :
    findallAux (fuel + 1) (c :: rest) =
      match emailMatchAt (c :: rest) with
      | some (m, r) => m :: findallAux fuel r
      | none => findallAux fuel rest := rfl

theorem emailMatchAt_rest_len {c : Char} {rest m r : Str}
    (h : emailMatchAt (c :: rest) = some (m, r)) : r.length ≤ rest.length := by
  have hsp := emailMatchAt_split h
  have hlen : rest.length + 1 = m.length + r.length := by
    have := congrArg List.length hsp.1
    simpa using this
  have hm1 : 1 ≤ m.length := by
    cases hm : m with
    | nil => rw [hm] at hsp; exact absurd rfl hsp.2
    | cons _ _ => simp
  omega

theorem findallAux_fuel :
    ∀ f₁ f₂ l, l.length ≤ f₁ → l.length ≤ f₂ → findallAux f₁ l = findallAux f₂ l := by
  intro f₁
  induction f₁ with
  | zero =>
    intro f₂ l h₁ _
    have hl : l = [] := List.eq_nil_of_length_eq_zero (Nat.le_zero.mp h₁)
    subst hl
    cases f₂ <;> rfl
  | succ f₁ ih =>
    intro f₂ l h₁ h₂
    cases l with
    | nil => cases f₂ <;> rfl
    | cons c rest =>
      cases f₂ with
      | zero => simp at h₂
      | succ f₂ =>
        rw [findallAux_succ, findallAux_succ]
        simp only [List.length_cons] at h₁ h₂
        cases hm : emailMatchAt (c :: rest) with
        | none =>
          simp only []
          exact ih f₂ rest (by omega) (by omega)
        | some p =>
          obtain ⟨m, r⟩ := p
          simp only []
          have hr := emailMatchAt_rest_len hm
          rw [ih f₂ r (by omega) (by omega)]

theorem findall_nil : findallEmails [] = [] := rfl

theorem findall_cons_some {c : Char} {rest m r : Str}
    (h : emailMatchAt (c :: rest) = some (m, r)) :
    findallEmails (c :: rest) = m :: findallEmails r := by
  unfold findallEmails
  simp only [List.length_cons]
  rw [findallAux_succ, h]
  simp only []
  congr 1
  exact findallAux_fuel rest.length r.length r (emailMatchAt_rest_len h) (Nat.le_refl _)

theorem findall_cons_none {c : Char} {rest : Str}
    (h : emailMatchAt (c :: rest) = none) :
    findallEmails (c :: rest) = findallEmails rest := by
  unfold findallEmails
  simp only [List.length_cons]
  rw [findallAux_succ, h]

theorem findall_chars :
    ∀ n l, List.length l ≤ n →
      ∀ e ∈ findallEmails l, '@' ∈ e ∧ ∀ c ∈ e, isEmailChar c = true := by
  intro n
  induction n with
  | zero =>
    intro l h e he
    have hl : l = [] := List.eq_nil_of_length_eq_zero (Nat.le_zero.mp h)
    subst hl
    simp [findall_nil] at he
  | succ n ih =>
    intro l h e he
    cases l with
    | nil => simp [findall_nil] at he
    | cons c rest =>
      simp only [List.length_cons] at h
      cases hm : emailMatchAt (c :: rest) with
      | none =>
        rw [findall_cons_none hm] at he
        exact ih rest (by omega) e he
      | some p =>
        obtain ⟨m, r⟩ := p
        rw [findall_cons_some hm] at he
        rcases List.mem_cons.mp he with he | he
        · subst he
          have hch := emailMatchAt_chars hm
          exact ⟨hch.1, hch.2.1⟩
        · have hr := emailMatchAt_rest_len hm
          exact ih r (by omega) e he

theorem findall_mem_chars {l e : Str} (h : e ∈ findallEmails l) :
    '@' ∈ e ∧ ∀ c ∈ e, isEmailChar c = true :=
  findall_chars l.length l (Nat.le_refl _) e h

/-! ## The tokenizer on zero and one matches -/

theorem pii_none {t : Str} (h : findallEmails t = []) : pii_filter_input t = (t, []) := by
  unfold pii_filter_input
  rw [h]
  rfl

theorem pii_single {t e : Str} (h : findallEmails t = [e]) :
    pii_filter_input t = (replaceAll e (placeholder 1) t, [(placeholder 1, e)]) := by
  unfold pii_filter_input
  rw [h]
  rfl

/-- C5: round-trip re-hydration (corrected).  The unrestricted claim is
false (`C5_roundtrip_counterexample`); what holds is: a text with no
regex match is returned unchanged and re-hydrated to itself, and for a
text with exactly one match `e` that occurs exactly once as a substring
and whose sanitized form contains the placeholder `__EMAIL_1__` exactly
once, substituting the placeholder back via the returned map restores
the original text exactly. -/
theorem C5_roundtrip_amended (t e : Str) :
    (findallEmails t = [] →
      rehydrateStr (pii_filter_input t).2 (pii_filter_input t).1 = t) ∧
    (findallEmails t = [e] → countOccur e t = 1 →
      countOccur (placeholder 1) (pii_filter_input t).1 = 1 →
      rehydrateStr (pii_filter_input t).2 (pii_filter_input t).1 = t) := by
  constructor
  · intro h
    rw [pii_none h]
    rfl
  · intro h1 h2 h3
    have hpii := pii_single h1
    have hch : '@' ∈ e := (findall_mem_chars (h1 ▸ List.mem_singleton_self e)).1
    have hne : e ≠ [] := List.ne_nil_of_mem hch
    obtain ⟨i, hi, huniq⟩ := countOccur_one hne h2
    obtain ⟨A, B, hAB, hlen⟩ := occursAt_decomp hne hi
    have hrepl : replaceAll e (placeholder 1) t = A ++ placeholder 1 ++ B := by
      rw [hAB]
      apply replaceAll_unique hne
      intro j hj
      rw [← hAB] at hj
      exact (huniq j hj).trans hlen.symm
    have hfst : (pii_filter_input t).1 = A ++ placeholder 1 ++ B := by
      rw [hpii, hrepl]
    have hsnd : (pii_filter_input t).2 = [(placeholder 1, e)] := by rw [hpii]
    have hphne : placeholder 1 ≠ [] := by decide
    rw [hfst] at h3
    have hocc1 : occursAt (placeholder 1) (A ++ placeholder 1 ++ B) A.length :=
      occursAt_append_left (placeholder 1) A B
    obtain ⟨j₀, hj₀, huniq2⟩ := countOccur_one hphne h3
    have hAj : A.length = j₀ := huniq2 _ hocc1
    rw [hsnd, hfst]
    show replaceAll (placeholder 1) e (A ++ placeholder 1 ++ B) = t
    rw [replaceAll_unique hphne A B
      (fun j hj => (huniq2 j hj).trans hAj.symm), ← hAB]

/-- C5 witness: the text `hi a@b.c` has the single match `a@b.c`,
occurring once, with a uniquely placed placeholder, and re-hydration
restores it exactly. -/
theorem C5_roundtrip_amended_witness :
    findallEmails ("hi a@b.c").data = [("a@b.c").data] ∧
    rehydrateStr (pii_filter_input ("hi a@b.c").data).2
      (pii_filter_input ("hi a@b.c").data).1 = ("hi a@b.c").data :=
  ⟨by decide,
   (C5_roundtrip_amended ("hi a@b.c").data ("a@b.c").data).2
     (by decide) (by decide) (by decide)⟩

/-! ## Substring-leak machinery: decomposing occurrences across
concatenation, and preservation of value-freeness under the redaction
substitutions -/

theorem infix_append_cases {v X Y : Str} (h : v <:+: X ++ Y) :
    v <:+: X ∨ v <:+: Y ∨
    ∃ v₁ v₂, v = v₁ ++ v₂ ∧ v₁ ≠ [] ∧ v₂ ≠ [] ∧ v₁ <:+ X ∧ v₂ <+: Y := by
  obtain ⟨s, t, hst⟩ := h
  rw [List.append_assoc] at hst
  rcases List.append_eq_append_iff.mp hst with ⟨x, hX, hvt⟩ | ⟨x, hs, hY⟩
  · rcases List.append_eq_append_iff.mp hvt with ⟨y, hx, ht⟩ | ⟨y, hv, hY2⟩
    · left
      exact ⟨s, y, by rw [hX, hx, List.append_assoc]⟩
    · cases hx0 : x with
      | nil =>
        right; left
        rw [hx0] at hv
        simp only [List.nil_append] at hv
        exact ⟨[], t, by rw [hY2, hv]; simp⟩
      | cons xc xr =>
        cases hy0 : y with
        | nil =>
          left
          rw [hy0] at hv
          simp only [List.append_nil] at hv
          exact ⟨s, [], by rw [hX, hv, hx0]; simp⟩
        | cons yc yr =>
          right; right
          refine ⟨x, y, hv, by rw [hx0]; simp, by rw [hy0]; simp,
            ⟨s, hX.symm⟩, ⟨t, hY2.symm⟩⟩
  · right; left
    exact ⟨x, t, by rw [hY, List.append_assoc]⟩

theorem not_infix_append_left (v X Y : Str)
    (hchars : ∀ c ∈ v, isEmailChar c = true)
    (c : Char) (hb : X.getLast? = some c) (hbe : isEmailChar c = false)
    (hX : ¬ v <:+: X) (hY : ¬ v <:+: Y) : ¬ v <:+: X ++ Y := by
  intro h
  rcases infix_append_cases h with h | h | ⟨v₁, v₂, hv, h1, _, hsuf, _⟩
  · exact hX h
  · exact hY h
  · obtain ⟨w, hw⟩ := hsuf
    have hlast : X.getLast? = v₁.getLast? := by
      rw [← hw]; exact List.getLast?_append_of_ne_nil w h1
    obtain ⟨a, ha⟩ : ∃ a, v₁.getLast? = some a := by
      cases hv1 : v₁.getLast? with
      | none => exact absurd (List.getLast?_eq_none_iff.mp hv1) h1
      | some a => exact ⟨a, rfl⟩
    have hac : a = c := by
      rw [hlast, ha] at hb
      exact Option.some.inj hb
    have hav : a ∈ v := by
      rw [hv]
      exact List.mem_append_left v₂ (List.mem_of_mem_getLast? (by rw [ha]; rfl))
    have hemail := hchars a hav
    rw [hac, hbe] at hemail
    exact Bool.noConfusion hemail

theorem not_infix_append_right (v X Y : Str)
    (hchars : ∀ c ∈ v, isEmailChar c = true)
    (c : Char) (hb : Y.head? = some c) (hbe : isEmailChar c = false)
    (hX : ¬ v <:+: X) (hY : ¬ v <:+: Y) : ¬ v <:+: X ++ Y := by
  intro h
  rcases infix_append_cases h with h | h | ⟨v₁, v₂, hv, _, h2, _, hpre⟩
  · exact hX h
  · exact hY h
  · obtain ⟨w, hw⟩ := hpre
    obtain ⟨a, v₂r, hv₂⟩ : ∃ a v₂r, v₂ = a :: v₂r := by
      cases v₂ with
      | nil => exact absurd rfl h2
      | cons a l => exact ⟨a, l, rfl⟩
    have hhead : Y.head? = some a := by rw [← hw, hv₂]; rfl
    have hac : a = c := Option.some.inj (hhead.symm.trans hb)
    have hav : a ∈ v := by
      rw [hv, hv₂]
      exact List.mem_append_right v₁ (List.mem_cons_self a v₂r)
    have hemail := hchars a hav
    rw [hac, hbe] at hemail
    exact Bool.noConfusion hemail

theorem valueFree_nil {vals : List Str}
    (hvals : ∀ v ∈ vals, '@' ∈ v ∧ ∀ c ∈ v, isEmailChar c = true) :
    ValueFree vals [] := by
  intro v hv hinf
  rw [List.infix_nil] at hinf
  subst hinf
  exact absurd (hvals [] hv).1 (by simp)

theorem valueFree_of_not_mem {vals : List Str}
    (hvals : ∀ v ∈ vals, '@' ∈ v ∧ ∀ c ∈ v, isEmailChar c = true)
    {s : Str} (hs : '@' ∉ s) : ValueFree vals s := by
  intro v hv hinf
  exact hs (hinf.subset (hvals v hv).1)

theorem valueFree_append_left {vals : List Str}
    (hvals : ∀ v ∈ vals, '@' ∈ v ∧ ∀ c ∈ v, isEmailChar c = true)
    {X Y : Str} (c : Char) (hb : X.getLast? = some c) (hbe : isEmailChar c = false)
    (hX : ValueFree vals X) (hY : ValueFree vals Y) : ValueFree vals (X ++ Y) := by
  intro v hv
  exact not_infix_append_left v X Y (hvals v hv).2 c hb hbe (hX v hv) (hY v hv)

theorem valueFree_append_right {vals : List Str}
    (hvals : ∀ v ∈ vals, '@' ∈ v ∧ ∀ c ∈ v, isEmailChar c = true)
    {X Y : Str} (c : Char) (hb : Y.head? = some c) (hbe : isEmailChar c = false)
    (hX : ValueFree vals X) (hY : ValueFree vals Y) : ValueFree vals (X ++ Y) := by
  intro v hv
  exact not_infix_append_right v X Y (hvals v hv).2 c hb hbe (hX v hv) (hY v hv)

theorem valueFree_of_sub {vals : List Str} {X Y : Str}
    (h : ValueFree vals Y) (hinf : X <:+: Y) : ValueFree vals X :=
  fun v hv hx => h v hv (hx.trans hinf)

theorem prefix_replaceAll (pat rep : Str) (ch : Char)
    (hh : rep.head? = some ch) (hche : isEmailChar ch = false) :
    ∀ s v, (∀ c ∈ v, isEmailChar c = true) → v <+: replaceAll pat rep s → v <+: s := by
  intro s
  induction s with
  | nil =>
    intro v _ h
    rw [replaceAll_nil] at h
    exact h
  | cons c rest ih =>
    intro v hchars h
    cases hcond : (!pat.isEmpty && pat.isPrefixOf (c :: rest)) with
    | true =>
      rw [replaceAll_cons_pos rep hcond] at h
      cases v with
      | nil => exact List.nil_prefix
      | cons a vr =>
        exfalso
        obtain ⟨rc, rr, hr⟩ : ∃ rc rr, rep = rc :: rr := by
          cases rep with
          | nil => simp at hh
          | cons rc rr => exact ⟨rc, rr, rfl⟩
        rw [hr] at hh
        simp only [List.head?_cons, Option.some.injEq] at hh
        rw [hr, List.cons_append, List.cons_prefix_cons] at h
        have hemail := hchars a (List.mem_cons_self a vr)
        rw [h.1, hh, hche] at hemail
        exact Bool.noConfusion hemail
    | false =>
      rw [replaceAll_cons_neg rep hcond] at h
      cases v with
      | nil => exact List.nil_prefix
      | cons a vr =>
        rw [List.cons_prefix_cons] at h
        exact List.cons_prefix_cons.mpr
          ⟨h.1, ih vr (fun x hx => hchars x (List.mem_cons_of_mem a hx)) h.2⟩

theorem infix_replaceAll (pat rep : Str) (ch cl : Char)
    (hh : rep.head? = some ch) (hche : isEmailChar ch = false)
    (hl : rep.getLast? = some cl) (hcle : isEmailChar cl = false)
    (hrat : '@' ∉ rep) :
    ∀ n s, s.length ≤ n → ∀ v, '@' ∈ v → (∀ c ∈ v, isEmailChar c = true) →
      v <:+: replaceAll pat rep s → v <:+: s := by
  intro n
  induction n with
  | zero =>
    intro s hs v _ _ h
    have hnil : s = [] := List.eq_nil_of_length_eq_zero (Nat.le_zero.mp hs)
    subst hnil
    rw [replaceAll_nil] at h
    exact h
  | succ n ih =>
    intro s hs v hat hchars h
    cases s with
    | nil => rw [replaceAll_nil] at h; exact h
    | cons c rest =>
      simp only [List.length_cons] at hs
      cases hcond : (!pat.isEmpty && pat.isPrefixOf (c :: rest)) with
      | true =>
        rw [replaceAll_cons_pos rep hcond] at h
        have hpat1 : 1 ≤ pat.length := by
          cases pat with
          | nil => simp at hcond
          | cons _ _ => simp
        have hdlen : ((c :: rest).drop pat.length).length ≤ n := by
          simp only [List.length_drop, List.length_cons]
          omega
        rcases infix_append_cases h with h | h | ⟨v₁, v₂, hv, h1, _, hsuf, _⟩
        · exact absurd (h.subset hat) hrat
        · exact (ih ((c :: rest).drop pat.length) hdlen v hat hchars h).trans
            (List.drop_suffix pat.length (c :: rest)).isInfix
        · exfalso
          obtain ⟨w, hw⟩ := hsuf
          have hlast : rep.getLast? = v₁.getLast? := by
            rw [← hw]; exact List.getLast?_append_of_ne_nil w h1
          obtain ⟨a, ha⟩ : ∃ a, v₁.getLast? = some a := by
            cases hv1 : v₁.getLast? with
            | none => exact absurd (List.getLast?_eq_none_iff.mp hv1) h1
            | some a => exact ⟨a, rfl⟩
          have hav : a ∈ v := by
            rw [hv]
            exact List.mem_append_left v₂ (List.mem_of_mem_getLast? (by rw [ha]; rfl))
          have hac : a = cl := Option.some.inj (ha.symm.trans (hlast.symm.trans hl))
          have hemail := hchars a hav
          rw [hac, hcle] at hemail
          exact Bool.noConfusion hemail
      | false =>
        rw [replaceAll_cons_neg rep hcond] at h
        rcases List.infix_cons_iff.mp h with h | h
        · cases v with
          | nil => simp at hat
          | cons a vr =>
            rw [List.cons_prefix_cons] at h
            have hvr : vr <+: rest :=
              prefix_replaceAll pat rep ch hh hche rest vr
                (fun x hx => hchars x (List.mem_cons_of_mem a hx)) h.2
            exact (List.cons_prefix_cons.mpr ⟨h.1, hvr⟩).isInfix
        · exact List.infix_cons (ih rest (by omega) v hat hchars h)

theorem valueFree_replaceAll_redact {vals : List Str}
    (hvals : ∀ v ∈ vals, '@' ∈ v ∧ ∀ c ∈ v, isEmailChar c = true)
    (pat s : Str) (h : ValueFree vals s) : ValueFree vals (replaceAll pat redactTag s) := by
  intro v hv hinf
  obtain ⟨hat, hchars⟩ := hvals v hv
  exact h v hv (infix_replaceAll pat redactTag '[' ']' (by decide) (by decide)
    (by decide) (by decide) (by decide) s.length s (Nat.le_refl _) v hat hchars hinf)

theorem valueFree_foldl_redact {vals : List Str}
    (hvals : ∀ v ∈ vals, '@' ∈ v ∧ ∀ c ∈ v, isEmailChar c = true)
    (f : Str × Str → Str) :
    ∀ (l : List (Str × Str)) (s : Str), ValueFree vals s →
      ValueFree vals (l.foldl (fun acc pv => replaceAll (f pv) redactTag acc) s) := by
  intro l
  induction l with
  | nil => intro s h; exact h
  | cons p l ih =>
    intro s h
    simp only [List.foldl_cons]
    exact ih _ (valueFree_replaceAll_redact hvals (f p) s h)

theorem valueFree_redact {vals : List Str}
    (hvals : ∀ v ∈ vals, '@' ∈ v ∧ ∀ c ∈ v, isEmailChar c = true)
    (s : Str) (m : List (Str × Str)) (h : ValueFree vals s) :
    ValueFree vals (redact_result_data s m) := by
  unfold redact_result_data
  by_cases hm : m.isEmpty = true
  · rw [if_pos hm]; exact h
  · rw [if_neg hm]
    exact valueFree_foldl_redact hvals Prod.snd m s h

theorem valueFree_scrub {vals : List Str}
    (hvals : ∀ v ∈ vals, '@' ∈ v ∧ ∀ c ∈ v, isEmailChar c = true)
    (m : List (Str × Str)) (s : Str) (h : ValueFree vals s) :
    ValueFree vals (scrubAnswer m s) :=
  valueFree_foldl_redact hvals Prod.fst m s h

theorem reverse_dropWhile_sub (p : Char → Bool) (l : Str) :
    (l.reverse.dropWhile p).reverse <:+: l := by
  have h : l.reverse.dropWhile p <:+ l.reverse := List.dropWhile_suffix p
  have h2 : (l.reverse.dropWhile p).reverse <+: l.reverse.reverse :=
    List.reverse_prefix.mpr h
  rw [List.reverse_reverse] at h2
  exact h2.isInfix

theorem pyStrip_sub (s : Str) : pyStrip s <:+: s := by
  unfold pyStrip
  exact (reverse_dropWhile_sub Char.isWhitespace (s.dropWhile Char.isWhitespace)).trans
    (List.dropWhile_suffix Char.isWhitespace).isInfix

theorem splitFirst_eq (pat : Str) :
    ∀ s b a, splitFirst pat s = some (b, a) → s = b ++ pat ++ a := by
  intro s
  induction s with
  | nil =>
    intro b a h
    simp only [splitFirst] at h
    by_cases hp : pat.isEmpty = true
    · rw [if_pos hp] at h
      simp only [Option.some.injEq, Prod.mk.injEq] at h
      obtain ⟨hb, ha⟩ := h
      subst hb
      subst ha
      rw [List.isEmpty_iff] at hp
      simp [hp]
    · rw [if_neg hp] at h
      simp at h
  | cons c rest ih =>
    intro b a h
    simp only [splitFirst] at h
    by_cases hp : pat.isPrefixOf (c :: rest) = true
    · rw [if_pos hp] at h
      simp only [Option.some.injEq, Prod.mk.injEq] at h
      obtain ⟨hb, ha⟩ := h
      subst hb
      subst ha
      simp only [List.nil_append]
      exact (List.prefix_iff_eq_append.mp (List.isPrefixOf_iff_prefix.mp hp)).symm
    · rw [if_neg hp] at h
      cases hs : splitFirst pat rest with
      | none => rw [hs] at h; simp at h
      | some p =>
        obtain ⟨br, ar⟩ := p
        rw [hs] at h
        simp only [Option.some.injEq, Prod.mk.injEq] at h
        obtain ⟨hb, ha⟩ := h
        subst ha
        subst hb
        rw [ih br ar hs]
        simp

theorem extractFenced_sub {resp inner : Str} (h : extractFenced resp = some inner) :
    inner <:+: resp := by
  unfold extractFenced at h
  cases h1 : splitFirst fenceSql resp with
  | none => rw [h1] at h; simp at h
  | some p =>
    obtain ⟨x, rest⟩ := p
    rw [h1] at h
    simp only [] at h
    cases h2 : splitFirst fence rest with
    | none => rw [h2] at h; simp at h
    | some p2 =>
      obtain ⟨inn, y⟩ := p2
      rw [h2] at h
      simp only [Option.some.injEq] at h
      subst h
      have e1 := splitFirst_eq fenceSql resp x rest h1
      have e2 := splitFirst_eq fence rest inn y h2
      have hi1 : inn <:+: rest := ⟨[], fence ++ y, by rw [e2]; simp⟩
      have hi2 : rest <:+: resp := ⟨x ++ fenceSql, [], by rw [e1]; simp⟩
      exact hi1.trans hi2

theorem pii_values (q : Str) :
    mapValues (pii_filter_input q).2 = findallEmails q := by
  have hmap : (pii_filter_input q).2 =
      (findallEmails q).enum.map (fun p => (placeholder (p.1 + 1), p.2)) := by
    unfold pii_filter_input
    rw [pii_fold_map]
    · simp
    · intro p _ kv hkv
      simp at hkv
    · rw [List.enum_map_fst]
      exact List.nodup_range _
  rw [hmap]
  unfold mapValues
  rw [List.map_map]
  have h1 : (Prod.snd ∘ fun p : Nat × Str => (placeholder (p.1 + 1), p.2)) =
      (Prod.snd : Nat × Str → Str) := by
    funext p
    rfl
  rw [h1, List.enum_map_snd]

theorem pii_values_chars (q : Str) :
    ∀ v ∈ mapValues (pii_filter_input q).2, '@' ∈ v ∧ ∀ c ∈ v, isEmailChar c = true := by
  intro v hv
  rw [pii_values] at hv
  exact findall_mem_chars hv

theorem valueFree_genPrompt {vals : List Str}
    (hvals : ∀ v ∈ vals, '@' ∈ v ∧ ∀ c ∈ v, isEmailChar c = true)
    {schema : Str} (hs : ValueFree vals schema) :
    ValueFree vals (genPrompt schema) := by
  unfold genPrompt
  refine valueFree_append_right hvals '\n' (by decide) (by decide) ?_
    (valueFree_of_not_mem hvals (by decide))
  exact valueFree_append_left hvals ' ' (by decide) (by decide)
    (valueFree_of_not_mem hvals (by decide)) hs

theorem valueFree_userMsg {vals : List Str}
    (hvals : ∀ v ∈ vals, '@' ∈ v ∧ ∀ c ∈ v, isEmailChar c = true)
    {sq : Str} (hsq : ValueFree vals sq) :
    ValueFree vals (userQuestionTag ++ sq) :=
  valueFree_append_left hvals ' ' (by decide) (by decide)
    (valueFree_of_not_mem hvals (by decide)) hsq

theorem valueFree_checkPrompt {vals : List Str}
    (hvals : ∀ v ∈ vals, '@' ∈ v ∧ ∀ c ∈ v, isEmailChar c = true)
    {schema sql : Str} (hs : ValueFree vals schema) (hq : ValueFree vals sql) :
    ValueFree vals (checkPrompt schema sql) := by
  unfold checkPrompt
  have h1 : ValueFree vals (checkPromptPre ++ schema) :=
    valueFree_append_left hvals ' ' (by decide) (by decide)
      (valueFree_of_not_mem hvals (by decide)) hs
  have h2 : ValueFree vals (checkPromptPre ++ schema ++ checkPromptMid) :=
    valueFree_append_right hvals '\n' (by decide) (by decide) h1
      (valueFree_of_not_mem hvals (by decide))
  have h3 : ValueFree vals (checkPromptPre ++ schema ++ checkPromptMid ++ sql) := by
    refine valueFree_append_left hvals ' ' ?_ (by decide) h2 hq
    exact (List.getLast?_append_of_ne_nil (checkPromptPre ++ schema)
      (by decide)).trans (by decide)
  exact valueFree_append_right hvals '\n' (by decide) (by decide) h3
    (valueFree_of_not_mem hvals (by decide))

theorem valueFree_answerPrompt {vals : List Str}
    (hvals : ∀ v ∈ vals, '@' ∈ v ∧ ∀ c ∈ v, isEmailChar c = true)
    {sq sql qr : Str} (h1 : ValueFree vals sq) (h2 : ValueFree vals sql)
    (h3 : ValueFree vals qr) :
    ValueFree vals (answerPrompt sq sql qr) := by
  unfold answerPrompt
  have a1 : ValueFree vals (answerPromptPre ++ sq) :=
    valueFree_append_left hvals ' ' (by decide) (by decide)
      (valueFree_of_not_mem hvals (by decide)) h1
  have a2 : ValueFree vals (answerPromptPre ++ sq ++ answerPromptMid1) :=
    valueFree_append_right hvals '\n' (by decide) (by decide) a1
      (valueFree_of_not_mem hvals (by decide))
  have a3 : ValueFree vals (answerPromptPre ++ sq ++ answerPromptMid1 ++ sql) := by
    refine valueFree_append_left hvals ' ' ?_ (by decide) a2 h2
    exact (List.getLast?_append_of_ne_nil (answerPromptPre ++ sq)
      (by decide)).trans (by decide)
  have a4 : ValueFree vals
      (answerPromptPre ++ sq ++ answerPromptMid1 ++ sql ++ answerPromptMid2) :=
    valueFree_append_right hvals '\n' (by decide) (by decide) a3
      (valueFree_of_not_mem hvals (by decide))
  have a5 : ValueFree vals
      (answerPromptPre ++ sq ++ answerPromptMid1 ++ sql ++ answerPromptMid2 ++ qr) := by
    refine valueFree_append_left hvals ' ' ?_ (by decide) a4 h3
    exact (List.getLast?_append_of_ne_nil
      (answerPromptPre ++ sq ++ answerPromptMid1 ++ sql) (by decide)).trans (by decide)
  exact valueFree_append_right hvals '\n' (by decide) (by decide) a5
    (valueFree_of_not_mem hvals (by decide))

theorem valueFree_errAnswer {vals : List Str}
    (hvals : ∀ v ∈ vals, '@' ∈ v ∧ ∀ c ∈ v, isEmailChar c = true)
    {e : Str} (he : ValueFree vals e) :
    ValueFree vals (errorAnswerTag ++ e) :=
  valueFree_append_left hvals ' ' (by decide) (by decide)
    (valueFree_of_not_mem hvals (by decide)) he

/-! ## Node inversions exposing the model calls -/

theorem gen_msgs_inv {O : Oracles} {tr : Trace} {st st' : AgentState} {tr' : Trace}
    (h : generate_sql_node O tr st = .ok (st', tr')) :
    ∃ resp, O.llm (llmCount tr) [⟨Role.system, genPrompt O.schema⟩,
        ⟨Role.human, userQuestionTag ++ (pii_filter_input st.question).1⟩] = .ok resp ∧
      st' = { st with
        sql_query := stripFences resp
        sanitized_question := (pii_filter_input st.question).1
        pii_map := (pii_filter_input st.question).2 } ∧
      tr' = tr ++ [.llmCall [⟨Role.system, genPrompt O.schema⟩,
        ⟨Role.human, userQuestionTag ++ (pii_filter_input st.question).1⟩] resp,
        .snap st'] := by
  cases hr : O.llm (llmCount tr) [⟨Role.system, genPrompt O.schema⟩,
      ⟨Role.human, userQuestionTag ++ (pii_filter_input st.question).1⟩] with
  | error e => simp [generate_sql_node, hr] at h
  | ok r =>
    simp only [generate_sql_node, hr, Except.ok.injEq, Prod.mk.injEq] at h
    exact ⟨r, rfl, h.1.symm, by rw [← h.2, ← h.1]⟩

theorem check_msgs_inv {O : Oracles} {tr : Trace} {st st' : AgentState} {tr' : Trace}
    (h : check_sql_node O tr st = .ok (st', tr')) :
    (st' = { st with error := some unsafeQueryMsg, sql_query := [] } ∧
      tr' = tr ++ [.snap st']) ∨
    (∃ resp, O.llm (llmCount tr) [⟨Role.system, checkPrompt O.schema st.sql_query⟩] =
        .ok resp ∧
      tr' = tr ++ [.llmCall [⟨Role.system, checkPrompt O.schema st.sql_query⟩] resp,
        .snap st'] ∧
      st'.question = st.question ∧ st'.pii_map = st.pii_map ∧
      st'.sanitized_question = st.sanitized_question ∧
      st'.query_result = st.query_result ∧ st'.error = none ∧
      (st'.sql_query = st.sql_query ∨
       (∃ inner, extractFenced (pyStrip resp) = some inner ∧
         st'.sql_query = pyStrip inner) ∨
       st'.sql_query = stripFences (pyStrip resp))) := by
  by_cases hd : destructive st.sql_query = true
  · rw [check_sql_blocked O tr hd, Except.ok.injEq, Prod.mk.injEq] at h
    obtain ⟨h1, h2⟩ := h
    subst h2
    left
    exact ⟨h1.symm, by rw [h1]⟩
  · rw [Bool.not_eq_true] at hd
    unfold destructive at hd
    cases hr : O.llm (llmCount tr) [⟨Role.system, checkPrompt O.schema st.sql_query⟩] with
    | error e => simp [check_sql_node, hd, hr] at h
    | ok r =>
      right
      by_cases hc : listInfix correctTag (upperStr (pyStrip r)) = true
      · simp only [check_sql_node, hd, Bool.or_self, Bool.false_eq_true, if_false, hr, hc,
          if_true, Except.ok.injEq, Prod.mk.injEq] at h
        obtain ⟨h1, h2⟩ := h
        subst h2
        refine ⟨r, rfl, ?_⟩
        rw [← h1]
        exact ⟨rfl, rfl, rfl, rfl, rfl, rfl, Or.inl rfl⟩
      · cases hx : extractFenced (pyStrip r) with
        | some inner =>
          simp only [check_sql_node, hd, Bool.or_self, Bool.false_eq_true, if_false, hr, hc,
            hx, Except.ok.injEq, Prod.mk.injEq] at h
          obtain ⟨h1, h2⟩ := h
          subst h2
          refine ⟨r, rfl, ?_⟩
          rw [← h1]
          exact ⟨rfl, rfl, rfl, rfl, rfl, rfl, Or.inr (Or.inl ⟨inner, hx, rfl⟩)⟩
        | none =>
          simp only [check_sql_node, hd, Bool.or_self, Bool.false_eq_true, if_false, hr, hc,
            hx, Except.ok.injEq, Prod.mk.injEq] at h
          obtain ⟨h1, h2⟩ := h
          subst h2
          refine ⟨r, rfl, ?_⟩
          rw [← h1]
          exact ⟨rfl, rfl, rfl, rfl, rfl, rfl, Or.inr (Or.inr rfl)⟩

theorem answer_msgs_inv {O : Oracles} {tr : Trace} {st st' : AgentState} {tr' : Trace}
    (h : generate_answer_node O tr st = .ok (st', tr')) :
    (st' = { st with final_answer := errorAnswerTag ++ st.error.getD [] } ∧
      tr' = tr ++ [.snap st']) ∨
    (∃ resp, O.llm (llmCount tr) [⟨Role.human,
        answerPrompt st.sanitized_question st.sql_query st.query_result⟩] = .ok resp ∧
      st' = { st with final_answer := scrubAnswer st.pii_map resp } ∧
      tr' = tr ++ [.llmCall [⟨Role.human,
        answerPrompt st.sanitized_question st.sql_query st.query_result⟩] resp,
        .snap st']) := by
  by_cases he : errTruthy st.error = true
  · rw [answer_err_shape O tr st he, Except.ok.injEq, Prod.mk.injEq] at h
    obtain ⟨h1, h2⟩ := h
    subst h2
    left
    exact ⟨h1.symm, by rw [h1]⟩
  · rw [Bool.not_eq_true] at he
    cases hr : O.llm (llmCount tr) [⟨Role.human,
        answerPrompt st.sanitized_question st.sql_query st.query_result⟩] with
    | error e => simp [generate_answer_node, he, hr] at h
    | ok r =>
      simp only [generate_answer_node, he, Bool.false_eq_true, if_false, hr,
        Except.ok.injEq, Prod.mk.injEq] at h
      obtain ⟨h1, h2⟩ := h
      subst h2
      right
      exact ⟨r, rfl, h1.symm, by rw [h1]⟩

theorem exec_cases {O : Oracles} {tr : Trace} {st : AgentState} :
    (∃ df, O.dbExec (execCount tr) (rehydrateStr st.pii_map st.sql_query) = .ok df ∧
      (execute_sql_node O tr st).1.query_result =
        redact_result_data (O.render df) st.pii_map ∧
      (execute_sql_node O tr st).1.error = st.error) ∨
    (∃ e, O.dbExec (execCount tr) (rehydrateStr st.pii_map st.sql_query) = .error e ∧
      (execute_sql_node O tr st).1.query_result = st.query_result ∧
      (execute_sql_node O tr st).1.error = some e) := by
  cases hdbr : O.dbExec (execCount tr) (rehydrateStr st.pii_map st.sql_query) with
  | ok df =>
    left
    exact ⟨df, rfl, by rw [exec_ok_shape O tr st df hdbr],
      by rw [exec_ok_shape O tr st df hdbr]⟩
  | error e =>
    right
    exact ⟨e, rfl, by rw [exec_fail_shape O tr st e hdbr],
      by rw [exec_fail_shape O tr st e hdbr]⟩

theorem llmMessages_snap_only (st : AgentState) (tr : Trace) :
    llmMessages (tr ++ [Event.snap st]) = llmMessages tr := by
  simp [llmMessages_append, llmMessages]

theorem llmMessages_exec_snap (s : Str) (b : Bool) (st : AgentState) (tr : Trace) :
    llmMessages (tr ++ [Event.execCall s b, Event.snap st]) = llmMessages tr := by
  simp [llmMessages_append, llmMessages]

theorem llmMessages_call_snap (m : List Message) (r : Str) (st : AgentState) (tr : Trace) :
    llmMessages (tr ++ [Event.llmCall m r, Event.snap st]) = llmMessages tr ++ [m] := by
  simp [llmMessages_append, llmMessages]

/-- Loop invariant for the no-leak analysis: if the tokenizer output,
the schema, every completion (and its fence-stripped forms), every
store error message and every rendered result are free of the values
`vals` (all email-shaped), then every model message and the final
answer of an ok-run are free of `vals`. -/
theorem loop_valueFree (O : Oracles) (q : Str) (vals : List Str)
    (hvals : ∀ v ∈ vals, '@' ∈ v ∧ ∀ c ∈ v, isEmailChar c = true)
    (hsan : ValueFree vals (pii_filter_input q).1)
    (hschema : ValueFree vals O.schema)
    (hllm : ∀ n msgs r, O.llm n msgs = .ok r →
      ValueFree vals r ∧ ValueFree vals (stripFences r) ∧
      ValueFree vals (stripFences (pyStrip r)))
    (hdb : ∀ n s e, O.dbExec n s = .error e → ValueFree vals e)
    (hrender : ∀ df, ValueFree vals (O.render df)) :
    ∀ fuel st tr st' tr',
      st.question = q →
      ValueFree vals st.query_result →
      (∀ ms ∈ llmMessages tr, ∀ msg ∈ ms, ValueFree vals msg.content) →
      pipelineLoop O fuel st tr = .ok (st', tr') →
      (∀ ms ∈ llmMessages tr', ∀ msg ∈ ms, ValueFree vals msg.content) ∧
      ValueFree vals st'.final_answer ∧
      st'.sanitized_question = (pii_filter_input q).1 := by
  intro fuel
  induction fuel with
  | zero =>
    intro st tr st' tr' _ _ _ h
    simp [pipelineLoop] at h
  | succ fuel ih =>
    intro st tr st' tr' hq hqr htr h
    cases hgen : generate_sql_node O tr st with
    | error e => simp [pipelineLoop, hgen] at h
    | ok p₁ =>
      obtain ⟨st₁, tr₁⟩ := p₁
      obtain ⟨resp₁, hr₁, hst₁, htr₁⟩ := gen_msgs_inv hgen
      rw [hq] at hr₁ hst₁ htr₁
      have hq₁ : st₁.question = q := by rw [hst₁]
      have hsq₁ : st₁.sanitized_question = (pii_filter_input q).1 := by rw [hst₁]
      have hpm₁ : st₁.pii_map = (pii_filter_input q).2 := by rw [hst₁]
      have hsql₁ : ValueFree vals st₁.sql_query := by
        rw [hst₁]
        exact (hllm _ _ _ hr₁).2.1
      have hqr₁ : ValueFree vals st₁.query_result := by rw [hst₁]; exact hqr
      have htrm₁ : ∀ ms ∈ llmMessages tr₁, ∀ msg ∈ ms, ValueFree vals msg.content := by
        intro ms hms msg hmsg
        rw [htr₁, llmMessages_call_snap] at hms
        rcases List.mem_append.mp hms with hms | hms
        · exact htr ms hms msg hmsg
        · rw [List.mem_singleton.mp hms] at hmsg
          rcases List.mem_cons.mp hmsg with hmsg | hmsg
          · rw [hmsg]
            exact valueFree_genPrompt hvals hschema
          · rw [List.mem_singleton.mp hmsg]
            exact valueFree_userMsg hvals hsan
      cases hchk : check_sql_node O tr₁ st₁ with
      | error e => simp [pipelineLoop, hgen, hchk] at h
      | ok p₂ =>
        obtain ⟨st₂, tr₂⟩ := p₂
        have hfacts : st₂.question = q ∧
            st₂.sanitized_question = (pii_filter_input q).1 ∧
            st₂.pii_map = (pii_filter_input q).2 ∧
            ValueFree vals st₂.sql_query ∧ ValueFree vals st₂.query_result ∧
            (∀ e, st₂.error = some e → ValueFree vals e) ∧
            (∀ ms ∈ llmMessages tr₂, ∀ msg ∈ ms, ValueFree vals msg.content) := by
          rcases check_msgs_inv hchk with ⟨hst₂, htr₂⟩ |
            ⟨resp₂, hr₂, htr₂, hqq₂, hpmm₂, hsqq₂, hqrr₂, herrn₂, hsqll₂⟩
          · refine ⟨by rw [hst₂]; exact hq₁, by rw [hst₂]; exact hsq₁,
              by rw [hst₂]; exact hpm₁, by rw [hst₂]; exact valueFree_nil hvals,
              by rw [hst₂]; exact hqr₁, ?_, ?_⟩
            · intro e he
              rw [hst₂] at he
              have he2 : some unsafeQueryMsg = some e := he
              rw [← Option.some.inj he2]
              exact valueFree_of_not_mem hvals (by decide)
            · intro ms hms msg hmsg
              rw [htr₂, llmMessages_snap_only] at hms
              exact htrm₁ ms hms msg hmsg
          · refine ⟨by rw [hqq₂]; exact hq₁, by rw [hsqq₂]; exact hsq₁,
              by rw [hpmm₂]; exact hpm₁, ?_, by rw [hqrr₂]; exact hqr₁, ?_, ?_⟩
            · rcases hsqll₂ with hs | ⟨inner, hx, hs⟩ | hs
              · rw [hs]; exact hsql₁
              · rw [hs]
                exact valueFree_of_sub (hllm _ _ _ hr₂).1
                  ((pyStrip_sub inner).trans
                    ((extractFenced_sub hx).trans (pyStrip_sub resp₂)))
              · rw [hs]; exact (hllm _ _ _ hr₂).2.2
            · intro e he
              rw [herrn₂] at he
              simp at he
            · intro ms hms msg hmsg
              rw [htr₂, llmMessages_call_snap] at hms
              rcases List.mem_append.mp hms with hms | hms
              · exact htrm₁ ms hms msg hmsg
              · rw [List.mem_singleton.mp hms] at hmsg
                rw [List.mem_singleton.mp hmsg]
                exact valueFree_checkPrompt hvals hschema hsql₁
        obtain ⟨hq₂, hsq₂, hpm₂, hsql₂, hqr₂, herr₂, htrm₂⟩ := hfacts
        obtain ⟨hqE, hsqE, hpmE, hsqlE, _, htrE⟩ := @exec_inv O tr₂ st₂
        have hq₃ : (execute_sql_node O tr₂ st₂).1.question = q := by
          rw [hqE]; exact hq₂
        have hsq₃ : (execute_sql_node O tr₂ st₂).1.sanitized_question =
            (pii_filter_input q).1 := by
          rw [hsqE]; exact hsq₂
        have hsql₃ : ValueFree vals (execute_sql_node O tr₂ st₂).1.sql_query := by
          rw [hsqlE]; exact hsql₂
        have hqr₃ : ValueFree vals (execute_sql_node O tr₂ st₂).1.query_result := by
          rcases @exec_cases O tr₂ st₂ with ⟨df, _, hqrE, _⟩ | ⟨e, _, hqrE, _⟩
          · rw [hqrE]
            exact valueFree_redact hvals _ _ (hrender df)
          · rw [hqrE]; exact hqr₂
        have herr₃ : ∀ e, (execute_sql_node O tr₂ st₂).1.error = some e →
            ValueFree vals e := by
          rcases @exec_cases O tr₂ st₂ with ⟨df, _, _, herrE⟩ | ⟨ee, hdbE, _, herrE⟩
          · intro e he
            rw [herrE] at he
            exact herr₂ e he
          · intro e he
            rw [herrE] at he
            rw [← Option.some.inj he]
            exact hdb _ _ _ hdbE
        have htrm₃ : ∀ ms ∈ llmMessages (execute_sql_node O tr₂ st₂).2,
            ∀ msg ∈ ms, ValueFree vals msg.content := by
          intro ms hms msg hmsg
          rw [htrE, llmMessages_exec_snap] at hms
          exact htrm₂ ms hms msg hmsg
        simp only [pipelineLoop, hgen, hchk] at h
        by_cases hret : should_retry (execute_sql_node O tr₂ st₂).1 = true
        · rw [if_pos hret] at h
          exact ih (execute_sql_node O tr₂ st₂).1 (execute_sql_node O tr₂ st₂).2 st' tr'
            hq₃ hqr₃ htrm₃ h
        · rw [if_neg hret] at h
          rcases answer_msgs_inv h with ⟨hst', htr'⟩ | ⟨resp₃, hr₃, hst', htr'⟩
          · refine ⟨?_, ?_, ?_⟩
            · intro ms hms msg hmsg
              rw [htr', llmMessages_snap_only] at hms
              exact htrm₃ ms hms msg hmsg
            · rw [hst']
              show ValueFree vals
                (errorAnswerTag ++ (execute_sql_node O tr₂ st₂).1.error.getD [])
              refine valueFree_errAnswer hvals ?_
              cases herrv : (execute_sql_node O tr₂ st₂).1.error with
              | none => exact valueFree_nil hvals
              | some e => exact herr₃ e herrv
            · rw [hst']; exact hsq₃
          · refine ⟨?_, ?_, ?_⟩
            · intro ms hms msg hmsg
              rw [htr', llmMessages_call_snap] at hms
              rcases List.mem_append.mp hms with hms | hms
              · exact htrm₃ ms hms msg hmsg
              · rw [List.mem_singleton.mp hms] at hmsg
                rw [List.mem_singleton.mp hmsg]
                refine valueFree_answerPrompt hvals ?_ hsql₃ hqr₃
                rw [hsq₃]
                exact hsan
            · rw [hst']
              exact valueFree_scrub hvals _ _ (hllm _ _ _ hr₃).1
            · rw [hst']; exact hsq₃

/-- C1: no-leak invariant (corrected).  The unrestricted claim is
false: on the terminal error-answer path the store's error message is
embedded verbatim in the final answer, so a store error echoing a real
value leaks it (`C1_error_answer_leak_counterexample`).  What holds is
the conditional invariant: whenever the tokenizer's sanitized output
and every string the oracles inject into the run (the schema, every
completion together with its fence-stripped forms, every store error
message, every rendered result) are free of the placeholder map's
real-value set, every recorded model message, the final state's
sanitized question and its final answer are also free of that set —
the templates, the redaction of rendered results and the final scrub
never re-introduce a value. -/
theorem C1_no_leak_amended (O : Oracles) (q : Str) (fuel : Nat)
    (st' : AgentState) (tr' : Trace)
    (hsan : ValueFree (mapValues (pii_filter_input q).2) (pii_filter_input q).1)
    (hschema : ValueFree (mapValues (pii_filter_input q).2) O.schema)
    (hllm : ∀ n msgs r, O.llm n msgs = .ok r →
      ValueFree (mapValues (pii_filter_input q).2) r ∧
      ValueFree (mapValues (pii_filter_input q).2) (stripFences r) ∧
      ValueFree (mapValues (pii_filter_input q).2) (stripFences (pyStrip r)))
    (hdb : ∀ n s e, O.dbExec n s = .error e →
      ValueFree (mapValues (pii_filter_input q).2) e)
    (hrender : ∀ df, ValueFree (mapValues (pii_filter_input q).2) (O.render df))
    (hrun : runPipeline O fuel q = .ok (st', tr')) :
    ValueFree (mapValues (pii_filter_input q).2) st'.sanitized_question ∧
    (∀ ms ∈ llmMessages tr', ∀ msg ∈ ms,
      ValueFree (mapValues (pii_filter_input q).2) msg.content) ∧
    ValueFree (mapValues (pii_filter_input q).2) st'.final_answer := by
  have hvals := pii_values_chars q
  obtain ⟨hmsgs, hfin, hsq⟩ := loop_valueFree O q (mapValues (pii_filter_input q).2)
    hvals hsan hschema hllm hdb hrender fuel (initState q) [] st' tr' rfl
    (valueFree_nil hvals) (by simp [llmMessages]) hrun
  exact ⟨by rw [hsq]; exact hsan, hmsgs, hfin⟩

/-- C1 witness: a healthy run on `mail a@b.c` with a value-free model
and store; no recorded message and no final text contains `a@b.c`. -/
theorem C1_no_leak_amended_witness :
    ∃ st tr, runPipeline oSuccess 12 ("mail a@b.c").data = .ok (st, tr) ∧
      (ValueFree (mapValues (pii_filter_input ("mail a@b.c").data).2)
        st.sanitized_question ∧
      (∀ ms ∈ llmMessages tr, ∀ msg ∈ ms,
        ValueFree (mapValues (pii_filter_input ("mail a@b.c").data).2) msg.content) ∧
      ValueFree (mapValues (pii_filter_input ("mail a@b.c").data).2)
        st.final_answer) := by
  refine ⟨(runPipeline oSuccess 12 ("mail a@b.c").data).toOption.get (by decide) |>.1,
    (runPipeline oSuccess 12 ("mail a@b.c").data).toOption.get (by decide) |>.2, ?_, ?_⟩
  · rfl
  · refine C1_no_leak_amended oSuccess ("mail a@b.c").data 12 _ _ (by decide) (by decide)
      ?_ ?_ (fun df => (by decide : ValueFree
        (mapValues (pii_filter_input ("mail a@b.c").data).2) (("tbl").data))) (by rfl)
    · intro n msgs r h
      have h' : Except.ok (("SELECT 1").data) = Except.ok r := h
      have hr := Except.ok.inj h'
      subst hr
      exact ⟨by decide, by decide, by decide⟩
    · intro n s e h
      have h' : (if s.isEmpty = true then Except.error (("no query").data)
          else Except.ok dfOneCol) = Except.error e := h
      by_cases hs : s.isEmpty = true
      · rw [if_pos hs] at h'
        have he := Except.error.inj h'
        subst he
        decide
      · rw [if_neg hs] at h'
        exact Except.noConfusion h'
